import Mathlib

/-!
Verification development for the kernel-generation core of the tile-language
compiler (`tile/lang/generate.cc`).  The definitions below are a shallow
embedding of the planner: pure C++ functions become Lean functions, the
driver loop becomes explicit state passing in the `Except` monad, and the
external collaborators declared in `generate.h` (lowering, code emission,
tile optimization) are passed in as a record of functions.  Machine
integers (`size_t`, `int64_t`) are modelled as `Nat`/`Int` with explicit
reduction mod `2^64` where the source performs unsigned arithmetic.
-/

namespace TileLang

/-- Width of `size_t`/`uint64_t` arithmetic in the source. -/
def U64MOD : Nat := 2 ^ 64

/-- Conversion of a signed 64-bit value to `size_t`, as in
`size_t i_stride = flat->access[0].strides[i];`. -/
def toU64 (x : Int) : Nat := (x % (U64MOD : Int)).toNat

/-- Op tags, from `Op` in `ops.h` (declaration mirrored from the spec's data
model; only these three tags are used by `generate.cc`). -/
inductive OpTag where
  | CONTRACTION
  | FUNCTION
  | CONSTANT
deriving DecidableEq, Inhabited

/-- Binding tags.  The source distinguishes only `Binding::TENSOR` from the
non-tensor tags; the non-tensor tags are collapsed following the spec's data
model (`CONSTANT`, scalar string/int/float). -/
inductive BindingTag where
  | TENSOR
  | CONSTANT
  | STRINGV
  | INTV
  | FLOATV
deriving DecidableEq, Inhabited

/-- One dimension of a tensor shape: `(size, stride)`. -/
structure TensorDimension where
  size : Nat := 0
  stride : Int := 0
deriving DecidableEq, Inhabited

/-- Tensor shape.  `tbytes` models the byte width of the element type
(`tile.h` is not part of the sources under test; modelled from the spec:
shape is `(elem_type, [(size, stride)...])` and `byte_size` scales
`elem_size` by the element width). -/
structure TensorShape where
  tbytes : Nat := 1
  dims : List TensorDimension := []
deriving DecidableEq, Inhabited

/-- `TensorShape::elem_size()`: product of the dimension sizes. -/
def TensorShape.elem_size (s : TensorShape) : Nat :=
  s.dims.foldl (fun acc d => acc * d.size) 1

/-- `TensorShape::byte_size()`: element count scaled by element width
(modelled from the spec; see `TensorShape.tbytes`). -/
def TensorShape.byte_size (s : TensorShape) : Nat :=
  s.elem_size * s.tbytes

/-- A variable binding (`Bindings` maps names to these). -/
structure Binding where
  tag : BindingTag := BindingTag.TENSOR
  shape : TensorShape := {}
deriving DecidableEq, Inhabited

/-- `TensorSpec`: only the `id` field is consulted by `generate.cc`
(the index polynomials are consumed by the external lowering). -/
structure TensorSpec where
  id : String := ""
deriving DecidableEq, Inhabited

/-- Contraction body; `generate.cc` reads `specs` and `use_default`. -/
structure Contraction where
  specs : List TensorSpec := []
  use_default : String := ""
deriving DecidableEq, Inhabited

/-- Function body: name and extra parameters (`prng_step` gets the state and
value output names appended as params). -/
structure Function_ where
  fn : String := ""
  params : List String := []
deriving DecidableEq, Inhabited

/-- A program operation. -/
structure Op where
  tag : OpTag := OpTag.FUNCTION
  output : String := ""
  inputs : List String := []
  c : Contraction := {}
  f : Function_ := {}
deriving DecidableEq, Inhabited

/-- `Op::Function::is_special()`.  Modelled from the spec: `ops.h` is not
among the sources under test; the spec names `prng_step`, `prng_state`,
`prng_value`, `gather`, `scatter` and `shape` as the special functions. -/
def isSpecial (f : Function_) : Bool :=
  ["shape", "gather", "scatter", "prng_step", "prng_state", "prng_value"].contains f.fn

/-- `prog.ops[i]` (out-of-range access is undefined behaviour in the source;
totalized with a default). -/
def opAt (ops : List Op) (i : Nat) : Op := ops.getD i default

/-- `FlatTensorAccess` from `flat.h` (fields used by `generate.cc`). -/
structure FlatTensorAccess where
  offset : Int := 0
  strides : List Int := []
  global_index_limit : Nat := 0
  vector : Nat := 1
deriving DecidableEq, Inhabited

/-- `FlatConstraint`: `Σ lhs[i]·idx[i] < rhs`. -/
structure FlatConstraint where
  lhs : List Int := []
  rhs : Int := 0
deriving DecidableEq, Inhabited

/-- `FlatContraction` (fields used by the planner). -/
structure FlatContraction where
  names : List String := []
  ranges : List Nat := []
  access : List FlatTensorAccess := []
  constraints : List FlatConstraint := []
  agg_vec : Nat := 1
  generate_contraction : Bool := true
  post_ops : List Op := []
  post_op_inputs : List (String × FlatTensorAccess) := []
  kernel_outputs : List String := []
  output : String := ""
deriving DecidableEq, Inhabited

/-- `flat.access[0]` (slot 0 is the output access). -/
def acc0 (flat : FlatContraction) : FlatTensorAccess := flat.access.getD 0 default

/-- `flat.access[0].strides[i]`. -/
def strideAt (flat : FlatContraction) (i : Nat) : Int := (acc0 flat).strides.getD i 0

/-! ## Zero/cover analysis: `NeedsZero` (generate.cc lines 29-64) -/

/-- The body of the per-constraint loop in `NeedsZero`: `output_only` stays
true as long as no index has `fc.lhs[i] != 0 && strides0[i] == 0`. -/
def outputOnlyB (flat : FlatContraction) (fc : FlatConstraint) : Bool :=
  (List.range flat.names.length).all fun i =>
    decide (¬ (fc.lhs.getD i 0 ≠ 0 ∧ strideAt flat i = 0))

/-- The first loop of `NeedsZero` over the given index list: skip zero
strides, return early (`none`) on a negative stride, otherwise collect the
`(stride, range)` pairs (both as `size_t`). -/
def collectPatternL (flat : FlatContraction) : List Nat → Option (List (Nat × Nat))
  | [] => some []
  | i :: rest =>
    let s := strideAt flat i
    if s = 0 then collectPatternL flat rest
    else if s < 0 then none
    else (collectPatternL flat rest).map (fun l => (s.toNat, flat.ranges.getD i 0) :: l)

/-- `std::pair` lexicographic `≤` on `(stride, range)` pairs. -/
def pairLe (a b : Nat × Nat) : Bool := a.1 < b.1 || (a.1 = b.1 && a.2 ≤ b.2)

/-- Ordered insertion used to model `std::sort` on the collected pairs
(the sorted sequence of pairs is unique, so any sorting algorithm agrees). -/
def insPair (a : Nat × Nat) : List (Nat × Nat) → List (Nat × Nat)
  | [] => [a]
  | b :: t => if pairLe a b then a :: b :: t else b :: insPair a t

/-- `std::sort(out_pattern.begin(), out_pattern.end())`. -/
def sortPairs (l : List (Nat × Nat)) : List (Nat × Nat) := l.foldr insPair []

/-- The contiguity walk at the end of `NeedsZero`: track `curskip`, require
`curskip == stride` at each sorted pair, multiply by the range (in `size_t`
arithmetic), and finally require `curskip == global_index_limit`.  Returns
`true` when the walk succeeds (the source returns `true` from `NeedsZero`
exactly when this returns `false`). -/
def walkOk (limit : Nat) : Nat → List (Nat × Nat) → Bool
  | cur, [] => cur == limit
  | cur, (s, r) :: rest => cur == s && walkOk limit ((cur * r) % U64MOD) rest

/-- `NeedsZero(flat, ts)` (the `ts` parameter is unused in the source body). -/
def NeedsZero (flat : FlatContraction) (ts : TensorShape) : Bool :=
  if (acc0 flat).offset ≠ 0 then true
  else
    match collectPatternL flat (List.range flat.names.length) with
    | none => true
    | some pat =>
      if flat.constraints.any (fun fc => outputOnlyB flat fc) then true
      else ! walkOk (acc0 flat).global_index_limit 1 (sortPairs pat)

/-- The claim's (spec §4.3 condition 3) notion of an output-only constraint:
every index with a nonzero constraint coefficient has output stride zero. -/
def SpecOutputOnly (flat : FlatContraction) (fc : FlatConstraint) : Prop :=
  ∀ i, i < flat.names.length → fc.lhs.getD i 0 ≠ 0 → strideAt flat i = 0

instance (flat : FlatContraction) (fc : FlatConstraint) :
    Decidable (SpecOutputOnly flat fc) := by
  unfold SpecOutputOnly; infer_instance

/-- The spec's description of the collected pattern: pairs `(stride, range)`
for the indices with nonzero output stride, in index order. -/
def nonzeroPattern (flat : FlatContraction) : List (Nat × Nat) :=
  (List.range flat.names.length).filterMap fun i =>
    if strideAt flat i ≠ 0 then some ((strideAt flat i).toNat, flat.ranges.getD i 0)
    else none

/-! ## Flat simplifier: `SimplifyFlat` (generate.cc lines 152-217) -/

/-- The `is_safe` lambda from `SimplifyFlat`, verbatim: it computes both
`perfect_match` and `both_zeros`, but the returned expression is
`perfect_match || perfect_match`, leaving `both_zeros` dead. -/
def isSafeB (i j : Nat) (iu ju : Nat) (a : FlatTensorAccess) : Bool :=
  let perfect_match := toU64 (a.strides.getD i 0) == iu && toU64 (a.strides.getD j 0) == ju
  let both_zeros := a.strides.getD i 0 == 0 && a.strides.getD j 0 == 0
  perfect_match || perfect_match

/-- The intended `is_safe` as described in spec §4.2 / §9:
`perfect_match || both_zeros`. -/
def isSafeIntended (i j : Nat) (iu ju : Nat) (a : FlatTensorAccess) : Bool :=
  let perfect_match := toU64 (a.strides.getD i 0) == iu && toU64 (a.strides.getD j 0) == ju
  let both_zeros := a.strides.getD i 0 == 0 && a.strides.getD j 0 == 0
  perfect_match || both_zeros

/-- The double loop of `SimplifyFlat` searching for the first mergeable index
pair `(i, j)`, parameterized by the safety check so that the source's check
and the spec's intended check can be compared. -/
def mergePairWith (safe : Nat → Nat → Nat → Nat → FlatTensorAccess → Bool)
    (flat : FlatContraction) : Option (Nat × Nat) :=
  (List.range flat.ranges.length).findSome? fun i =>
    let iu := toU64 (strideAt flat i)
    if iu = 0 then none
    else
      (List.range flat.ranges.length).findSome? fun j =>
        let ju := toU64 (strideAt flat j)
        if ju = 0 then none
        else if iu ≠ (flat.ranges.getD j 0 * ju) % U64MOD then none
        else if (flat.access.drop 1).all (safe i j iu ju) &&
                flat.post_op_inputs.all (fun kvp => safe i j iu ju kvp.2) then
          some (i, j)
        else none

/-- The merge applied once a pair is found: rename `names[j]`, erase entry
`i` from `names`, multiply `ranges[j]` (in `size_t` arithmetic), erase entry
`i` from `ranges` and from every access's strides. -/
def applyMerge (flat : FlatContraction) (i j : Nat) : FlatContraction :=
  { flat with
    names := (flat.names.set j ((flat.names.getD i "") ++ "_" ++ (flat.names.getD j ""))).eraseIdx i
    ranges := (flat.ranges.set j ((flat.ranges.getD j 0 * flat.ranges.getD i 0) % U64MOD)).eraseIdx i
    access := flat.access.map fun a => { a with strides := a.strides.eraseIdx i }
    post_op_inputs := flat.post_op_inputs.map fun kvp =>
      (kvp.1, { kvp.2 with strides := kvp.2.strides.eraseIdx i }) }

/-- `SimplifyFlat`: `none` models returning `false` (unchanged), `some flat'`
models a performed merge (returning `true`). -/
def SimplifyFlat (flat : FlatContraction) : Option FlatContraction :=
  if flat.constraints ≠ [] then none
  else (mergePairWith isSafeB flat).map fun p => applyMerge flat p.1 p.2

/-- The pair search with the spec's intended safety check, for comparison. -/
def mergePairIntended (flat : FlatContraction) : Option (Nat × Nat) :=
  if flat.constraints ≠ [] then none
  else mergePairWith isSafeIntended flat

/-- The claim's safety disjunction for a pair `(i, j)` and another access:
perfect match with the output strides, or both strides zero. -/
def SpecSafePair (flat : FlatContraction) (i j : Nat) (a : FlatTensorAccess) : Prop :=
  (a.strides.getD i 0 = strideAt flat i ∧ a.strides.getD j 0 = strideAt flat j) ∨
  (a.strides.getD i 0 = 0 ∧ a.strides.getD j 0 = 0)

instance (flat : FlatContraction) (i j : Nat) (a : FlatTensorAccess) :
    Decidable (SpecSafePair flat i j a) := by
  unfold SpecSafePair; infer_instance

/-! ## VarRewrites

Modelled from the spec (§9, "`var_rewrites` as a union-find-lite"):
`var_rewrites.h` is not among the sources under test.  A key→key mapping;
`Lookup` walks the mapping to a fixed point, `Insert` records a mapping.
The walk is fuelled by the map size, which always suffices because the
planner only inserts already-resolved values under fresh keys. -/

/-- First value stored under key `k`, if any. -/
def assocV (m : List (String × String)) (k : String) : Option String :=
  (m.find? (fun p => p.1 = k)).map (fun p => p.2)

/-- Fuelled fixed-point walk of the mapping. -/
def lookupAux : Nat → List (String × String) → String → String
  | 0, _, k => k
  | n + 1, m, k =>
    match assocV m k with
    | none => k
    | some v => lookupAux n m v

structure VarRewrites where
  map : List (String × String) := []
deriving DecidableEq, Inhabited

/-- `VarRewrites::Lookup`. -/
def VarRewrites.Lookup (vr : VarRewrites) (k : String) : String :=
  lookupAux (vr.map.length + 1) vr.map k

/-- `VarRewrites::Insert`. -/
def VarRewrites.Insert (vr : VarRewrites) (k v : String) : VarRewrites :=
  ⟨(k, v) :: vr.map⟩

/-! ## UseDef (usedef.h is not under test; modelled from spec §4.1)

`op_defs`: for each op, `op_defs[op.output] = i`; `uses`: for each input `v`
of op `i`, add `i` to `uses[v]`.  `uses` lookups in the source go through
`std::map::at`; the planner only consults names bound by the program, so the
lookup is modelled as a total function returning the (possibly empty)
ascending list of user indices. -/

def op_defs (ops : List Op) (name : String) : Option Nat :=
  (List.range ops.length).find? (fun i => (opAt ops i).output = name)

def usesOf (ops : List Op) (name : String) : List Nat :=
  (List.range ops.length).filter (fun i => name ∈ (opAt ops i).inputs)

/-! ## Unification test: `OpCanBeUnified` (generate.cc lines 270-324) -/

/-- `DifferentSize`. -/
def DifferentSize (a b : Binding) : Bool :=
  if a.tag ≠ BindingTag.TENSOR ∨ b.tag ≠ BindingTag.TENSOR then true
  else decide (a.shape.elem_size ≠ b.shape.elem_size)

/-- `SameSizeOrBroadcastCompatible`. -/
def SameSizeOrBroadcastCompatible (input output : Binding) : Bool :=
  if input.shape.elem_size = output.shape.elem_size then true
  else if output.shape.dims.length < input.shape.dims.length then false
  else
    let off := output.shape.dims.length - input.shape.dims.length
    (List.range input.shape.dims.length).all fun i =>
      decide ((input.shape.dims.getD i default).size = 1 ∨
        (input.shape.dims.getD i default).size = (output.shape.dims.getD (off + i) default).size)

/-- `OpCanBeUnified(prog, vars, root_opidx, test_opidx)`. -/
def OpCanBeUnified (ops : List Op) (vars : String → Binding) (root test : Nat) : Bool :=
  let root_op := opAt ops root
  let test_op := opAt ops test
  if test_op.tag ≠ OpTag.FUNCTION ∨ isSpecial test_op.f then false
  else if DifferentSize (vars root_op.output) (vars test_op.output) then false
  else test_op.inputs.all fun input =>
    if (vars input).tag ≠ BindingTag.TENSOR then true
    else SameSizeOrBroadcastCompatible (vars input) (vars root_op.output)

/-! ## Sorted integer sets (model of `std::set<size_t>`) -/

/-- Ordered, deduplicating insertion. -/
def insertSorted (a : Nat) : List Nat → List Nat
  | [] => [a]
  | b :: t => if a < b then a :: b :: t else if a = b then b :: t else b :: insertSorted a t

/-- `unified.insert(candidates.begin(), candidates.end())`. -/
def unionSorted (c : List Nat) (l : List Nat) : List Nat :=
  c.foldl (fun acc x => insertSorted x acc) l

/-! ## Unification planner: `ConnectedComponents` (generate.cc lines 326-418)

The two `while` loops over explicit stacks are fuelled; `none` models fuel
exhaustion (which cannot occur with fuel larger than the program length, as
every op index is pushed at most once per loop). -/

/-- The inner `for (const std::string& input : prog.ops[c].inputs)` loop of
the candidate-closure construction: thread the candidate set and the list of
new frontier pushes; `none` models `goto discard_candidate_set`. -/
def scanInputs (ops udOps : List Op) (vars : String → Binding) (root : Nat)
    (prev unified : List Nat) :
    List String → List Nat → List Nat → Option (List Nat × List Nat)
  | [], cands, pushes => some (cands, pushes)
  | input :: rest, cands, pushes =>
    match op_defs udOps input with
    | none => scanInputs ops udOps vars root prev unified rest cands pushes
    | some i =>
      if i < root ∨ i ∈ unified ∨ i ∈ cands ∨ i ∈ prev then
        scanInputs ops udOps vars root prev unified rest cands pushes
      else if (opAt ops i).tag = OpTag.CONSTANT then
        scanInputs ops udOps vars root prev unified rest cands pushes
      else if OpCanBeUnified ops vars root i = true then
        scanInputs ops udOps vars root prev unified rest (insertSorted i cands) (pushes ++ [i])
      else none

/-- The candidate-closure loop (`while (!candidate_frontier.empty())`).
Result `some none` models a discarded candidate set, `some (some C)` a
completed one, `none` fuel exhaustion. -/
def ccCand (ops udOps : List Op) (vars : String → Binding) (root : Nat)
    (prev unified : List Nat) :
    Nat → List Nat → List Nat → Option (Option (List Nat))
  | _, cands, [] => some (some cands)
  | 0, _, _ :: _ => none
  | fuel + 1, cands, c :: rest =>
    match scanInputs ops udOps vars root prev unified (opAt ops c).inputs cands [] with
    | none => some none
    | some (cands', pushes) =>
      ccCand ops udOps vars root prev unified fuel cands' (pushes.reverse ++ rest)

/-- The `for (std::size_t c_start : ud.uses().at(...))` loop: each committed
candidate set is merged into `unified` and its members pushed (in ascending
order) onto the frontier. -/
def ccConsumers (ops udOps : List Op) (vars : String → Binding) (root : Nat)
    (prev : List Nat) (fuel : Nat) :
    List Nat → List Nat → List Nat → Option (List Nat × List Nat)
  | unified, frontier, [] => some (unified, frontier)
  | unified, frontier, cst :: rest =>
    if cst ∈ unified ∨ OpCanBeUnified ops vars root cst = false ∨ cst ∈ prev then
      ccConsumers ops udOps vars root prev fuel unified frontier rest
    else
      match ccCand ops udOps vars root prev unified fuel [cst] [cst] with
      | none => none
      | some none => ccConsumers ops udOps vars root prev fuel unified frontier rest
      | some (some cands) =>
        ccConsumers ops udOps vars root prev fuel
          (unionSorted cands unified) (cands.reverse ++ frontier) rest

/-- The outer loop (`while (!unified_frontier.empty())`). -/
def ccMain (ops udOps : List Op) (vars : String → Binding) (root : Nat)
    (prev : List Nat) :
    Nat → List Nat → List Nat → Option (List Nat)
  | _, unified, [] => some unified
  | 0, _, _ :: _ => none
  | fuel + 1, unified, u :: rest =>
    match ccConsumers ops udOps vars root prev (fuel + 1) unified rest
        (usesOf udOps (opAt ops u).output) with
    | none => none
    | some (unified', frontier') => ccMain ops udOps vars root prev fuel unified' frontier'

/-- `ConnectedComponents(prog, vars, root_opidx, previously_computed, ud)`.
`ops` is the current program, `udOps` the program the `UseDef` index was
built from (they differ only after the `prng_step` rewrite in the driver). -/
def ConnectedComponents (ops udOps : List Op) (vars : String → Binding)
    (root : Nat) (prev : List Nat) (fuel : Nat) : Option (List Nat) :=
  ccMain ops udOps vars root prev fuel [root] [root]

/-! ## Polynomials over index symbols

Spec §9: the abstract operations required from `Polynomial` are construction
from an index name, addition, scalar multiplication, coefficient extraction
and floor of a coefficient.  Backed here by a total coefficient function
(`polynomial.h` is not among the sources under test). -/

def Poly : Type := String → Rat

def Poly.zero : Poly := fun _ => 0

/-- `Polynomial(idx_name)`. -/
def Poly.var (n : String) : Poly := fun s => if s = n then 1 else 0

def Poly.add (p q : Poly) : Poly := fun s => p s + q s

/-- `p * (int64 scalar)`. -/
def Poly.smul (p : Poly) (c : Int) : Poly := fun s => p s * (c : Rat)

/-! ## Post-op integrator: `DoUnification` (generate.cc lines 420-616) -/

/-- The per-kernel rewrite map `local_var_rewrites` (an `unordered_map`;
`emplace` inserts only when the key is absent). -/
def emplaceKV (k v : String) (m : List (String × String)) : List (String × String) :=
  if (m.find? (fun p => p.1 = k)).isSome then m else m ++ [(k, v)]

/-- Rewriting one input through `local_var_rewrites`. -/
def rewriteInput (localRw : List (String × String)) (inp : String) : String :=
  match localRw.find? (fun p => p.1 = inp) with
  | some p => p.2
  | none => inp

/-- `unordered_set` insertion (order of iteration is never observed). -/
def insertIfAbsent (s : String) (l : List String) : List String :=
  if s ∈ l then l else l ++ [s]

/-- Ordered, deduplicating insertion for `std::set<std::string>`. -/
def insertSortedStr (s : String) : List String → List String
  | [] => [s]
  | b :: t => if s < b then s :: b :: t else if s = b then b :: t else b :: insertSortedStr s t

/-- Whether `input` is defined by an op inside the unified set
(`uit != ud.op_defs().end() && unified_opidxs.count(uit->second)`). -/
def definedInSet (udOps : List Op) (unified : List Nat) (inp : String) : Bool :=
  match op_defs udOps inp with
  | none => false
  | some d => unified.contains d

/-- State threaded through the unified-op loop of `DoUnification`. -/
structure UniState where
  localRw : List (String × String) := []
  vr : VarRewrites := {}
  postOps : List Op := []
  wsr : List String := []
  pci : List String := []
deriving DecidableEq, Inhabited

/-- The non-elided path of the loop body: copy the op, rewrite its inputs
through `local_var_rewrites`, record external tensor inputs in
`war_safe_reads` and `post_contraction_inputs`, and append the post-op. -/
def emitOp (udOps : List Op) (vars : String → Binding) (unified : List Nat)
    (st : UniState) (uop : Op) : UniState :=
  let rewritten := uop.inputs.map (rewriteInput st.localRw)
  let ws_pci := rewritten.foldl (fun (acc : List String × List String) inp =>
      if (vars inp).tag = BindingTag.TENSOR ∧ definedInSet udOps unified inp = false then
        (insertIfAbsent inp acc.1, insertSortedStr inp acc.2)
      else acc) (st.wsr, st.pci)
  { st with postOps := st.postOps ++ [{ uop with inputs := rewritten }],
            wsr := ws_pci.1, pci := ws_pci.2 }

/-- The body of `for (auto unified_opidx : unified_opidxs)` in
`DoUnification`: skip non-FUNCTION ops, validate and possibly elide
reshape/ident ops, otherwise emit the op as a post-op. -/
def processUnifiedOp (ops : List Op) (vars : String → Binding)
    (inputs outputs : List String) (udOps : List Op) (unified : List Nat)
    (st : UniState) (uidx : Nat) : Except String UniState :=
  let uop := opAt ops uidx
  if uop.tag ≠ OpTag.FUNCTION then .ok st
  else if uop.f.fn = "reshape" ∨ uop.f.fn = "ident" then
    if uop.inputs.length < 1 then .error "reshape must have at least one parameter"
    else
      let in_binding := vars (uop.inputs.getD 0 "")
      let out_binding := vars uop.output
      if in_binding.tag ≠ BindingTag.TENSOR then .error "reshape only works on tensors"
      else if in_binding.shape.byte_size ≠ out_binding.shape.byte_size then
        .error "Invalid reshape"
      else if in_binding.shape.elem_size ≠ out_binding.shape.elem_size then
        .error "Invalid reshape"
      else
        let input := st.vr.Lookup (uop.inputs.getD 0 "")
        if uop.output ∉ outputs ∨ (input ∉ outputs ∧ input ∉ inputs) then
          .ok { st with vr := st.vr.Insert uop.output input,
                        localRw := emplaceKV uop.output input st.localRw }
        else .ok (emitOp udOps vars unified st uop)
  else .ok (emitOp udOps vars unified st uop)

/-- The kernel-outputs pass of `DoUnification`: an op's (rewritten) output
becomes a kernel output iff it is not a kernel input and it is either a
program output or consumed outside the unified set. -/
def kernelOutputsOf (ops udOps : List Op) (outputs : List String)
    (kernel_inputs : List String) (vrF : VarRewrites) (unified : List Nat) : List String :=
  unified.foldl (fun ko uidx =>
    let uop := opAt ops uidx
    let nm := vrF.Lookup uop.output
    if kernel_inputs.contains nm then ko
    else
      if uop.output ∈ outputs ∨ (usesOf udOps uop.output).any (fun u => !unified.contains u) then
        insertSortedStr nm ko
      else ko) []

/-- Step 5 of `DoUnification`: derive a `FlatTensorAccess` for one
post-contraction input from the output index polynomials. -/
def postOpInputAccess (vars : String → Binding) (out_shape : TensorShape)
    (out_poly : List Poly) (names : List String) (name : String) : FlatTensorAccess :=
  let shape0 := (vars name).shape
  let shape := if shape0.elem_size = out_shape.elem_size then out_shape else shape0
  let p := (List.range shape.dims.length).foldl (fun p i =>
      let off := out_poly.length - shape.dims.length + i
      let d := shape.dims.getD i default
      if d.size ≠ 1 ∨ (out_shape.dims.getD off default).size = 1 then
        p.add ((out_poly.getD off Poly.zero).smul d.stride)
      else p) Poly.zero
  { global_index_limit := shape.elem_size
    strides := names.map (fun idx => Rat.floor (p idx)) }

/-- `DoUnification`.  Returns the updated flat contraction, `computed` set,
`var_rewrites` and `war_safe_reads` (the source mutates these through
pointers).  The only error paths are the reshape validations; the internal
fuel for `ConnectedComponents` (`|ops| + 1`) never runs out. -/
def DoUnification (flat : FlatContraction) (computed : List Nat)
    (vr : VarRewrites) (wsr : List String) (ops udOps : List Op) (opidx : Nat)
    (vars : String → Binding) (inputs outputs : List String)
    (out_poly : List Poly) :
    Except String (FlatContraction × List Nat × VarRewrites × List String) := do
  let op := opAt ops opidx
  let kernel_inputs := op.inputs
  match ConnectedComponents ops udOps vars opidx computed (ops.length + 1) with
  | none => .error "internal: unification fuel exhausted"
  | some unified => do
    let stF ← unified.foldlM
      (fun st u => processUnifiedOp ops vars inputs outputs udOps unified st u)
      ({ vr := vr, wsr := wsr } : UniState)
    let kouts := kernelOutputsOf ops udOps outputs kernel_inputs stF.vr unified
    let out_shape := (vars flat.output).shape
    let poi := stF.pci.map (fun name =>
      (name, postOpInputAccess vars out_shape out_poly flat.names name))
    .ok ({ flat with post_ops := flat.post_ops ++ stF.postOps,
                     kernel_outputs := flat.kernel_outputs ++ kouts,
                     post_op_inputs := flat.post_op_inputs ++ poi },
         unionSorted unified computed, stF.vr, stF.wsr)

/-! ## Kernels and external collaborators

`KernelInfo` keeps the fields the planner writes.  The collaborators of
spec §6 (`Compile` of a single contraction, `GenZero`, `GenCopy`,
`GenSpecial`, `Vectorize`, `TileOptimize`, `GenContract`,
`ComputeTileStats`, `KeyString`) live outside the sources under test and are
modelled from the spec as a record of opaque functions. -/

structure PerfStats where
  work_groups : Nat := 0
  inner_loops : Nat := 0
  mem_read : Nat := 0
  mem_write : Nat := 0
  true_ops : Nat := 0
deriving DecidableEq, Inhabited

structure HardwareSettings where
  vec_size : Nat := 1
deriving DecidableEq, Inhabited

structure KernelBase where
  kname : String := ""
  inputs : List String := []
  outputs : List String := []
  key : String := ""
  tile_size : List Nat := []
  tot_bytes : Nat := 0
  tot_flops : Nat := 0
deriving DecidableEq, Inhabited

structure KernelInfo extends KernelBase where
  candidates : List KernelBase := []
  war_safe_reads : List String := []
deriving DecidableEq, Inhabited

structure KernelList where
  kernels : List KernelInfo := []
  var_rewrites : VarRewrites := {}
deriving DecidableEq, Inhabited

/-- Modelled from the spec: the collaborator interfaces of §6.  `lowerC` is
`Compile(Contraction, tshapes, &out_poly)`; `tileOptimize` returns the
score-ascending candidate list (`map<score, tile>` iterated via `rbegin`);
`genZero`/`genCopy`/`genSpecial`/`genContract` produce kernels named by
their `kname` argument per §6. -/
structure Collab where
  lowerC : Contraction → List TensorShape → FlatContraction × List Poly
  vectorize : FlatContraction → Nat → FlatContraction
  tileOptimize : HardwareSettings → FlatContraction → Bool → (String → Binding) → List (List Nat)
  genContract : String → HardwareSettings → FlatContraction → List Nat → List String → KernelInfo
  tileStats : HardwareSettings → FlatContraction → List Nat → PerfStats
  genZero : TensorShape → String → String → KernelInfo
  genCopy : TensorShape → String → String → String → KernelInfo
  genSpecial : Op → String → HardwareSettings → List KernelInfo
  keyString : FlatContraction → String

/-- `GenerateContractionKernel` (generate.cc lines 66-137; the protobuf
diagnostic payload is omitted — it is write-only metadata). -/
def GenerateContractionKernel (cl : Collab) (kname : String)
    (settings : HardwareSettings) (flat : FlatContraction) (tile : List Nat)
    (inputs : List String) (vars : String → Binding) (vr : VarRewrites) : KernelInfo :=
  let ki := cl.genContract kname settings flat tile inputs
  let extra := (inputs.filter (fun inp => (vars inp).tag = BindingTag.TENSOR)).map vr.Lookup
      ++ flat.post_op_inputs.map (fun kvp => vr.Lookup kvp.1)
  let perf := cl.tileStats settings flat tile
  { ki with outputs := flat.kernel_outputs
            key := cl.keyString flat
            tile_size := tile
            inputs := ki.inputs ++ extra
            tot_bytes := perf.work_groups * ((perf.inner_loops * perf.mem_read) + perf.mem_write)
            tot_flops := perf.true_ops }

/-- `while (SimplifyFlat(&flat)) {}` — each successful merge removes one
index, so fuel `|names| + 1` always reaches the fixed point. -/
def simplifyLoop : Nat → FlatContraction → FlatContraction
  | 0, f => f
  | fuel + 1, f =>
    match SimplifyFlat f with
    | none => f
    | some f' => simplifyLoop fuel f'

/-- `for (auto vec_size = settings.vec_size; flat.agg_vec == 1 && 1 < vec_size; vec_size /= 2)`.
The loop halves `vec_size` each iteration, so running it with fuel equal to
the initial `vec_size` reaches the exit condition exactly as the source
loop does. -/
def vectorizeLoop (vect : FlatContraction → Nat → FlatContraction) :
    Nat → FlatContraction → Nat → FlatContraction
  | 0, flat, _ => flat
  | fuel + 1, flat, vec_size =>
    if flat.agg_vec = 1 ∧ 1 < vec_size then
      vectorizeLoop vect fuel (vect flat vec_size) (vec_size / 2)
    else flat

/-- The kernel constructed by `ContractionWrap` once the arity check has
passed: simplify, vectorize, pick tiles by descending score, and attach the
remaining trials as candidates (an empty tile list leaves the
default-constructed `KernelInfo`, as in the source). -/
def wrapBuild (cl : Collab) (settings : HardwareSettings) (vars : String → Binding)
    (tile_trials : Nat) (vr : VarRewrites) (wsr : List String)
    (inputs : List String) (flat0 : FlatContraction) (kname : String) : KernelInfo :=
  let flat1 := simplifyLoop (flat0.names.length + 1) flat0
  let flat := vectorizeLoop cl.vectorize settings.vec_size flat1 settings.vec_size
  let selected := (cl.tileOptimize settings flat (decide (tile_trials = 1)) vars).reverse.take tile_trials
  let kis := selected.map fun tile =>
    GenerateContractionKernel cl kname settings flat tile inputs vars vr
  let primary : KernelInfo :=
    match kis with
    | [] => default
    | k :: rest => { k with candidates := rest.map KernelInfo.toKernelBase }
  { primary with war_safe_reads := wsr }

/-- `ContractionWrap` (generate.cc lines 219-268): returns the kernels to
append (empty when the kernel consists entirely of elided elementwise
operations). -/
def ContractionWrap (cl : Collab) (settings : HardwareSettings)
    (vars : String → Binding) (tile_trials : Nat) (vr : VarRewrites)
    (wsr : List String) (copt : Option Contraction) (flat0 : FlatContraction)
    (kname : String) : Except String (List KernelInfo) :=
  if flat0.generate_contraction = false ∧ flat0.post_ops = [] then .ok []
  else
    match copt with
    | some c =>
      if c.specs.length = 2 ∨ c.specs.length = 3 ∨ c.specs.length = 4 then
        .ok [wrapBuild cl settings vars tile_trials vr wsr
              ((c.specs.drop 1).map (fun sp => sp.id)) flat0 kname]
      else .error "Currently, we only support 1, 2, and 3 element Contractions"
    | none => .ok [wrapBuild cl settings vars tile_trials vr wsr [] flat0 kname]

/-! ## Driver loop: `Compile` (generate.cc lines 618-780) -/

/-- Driver state threaded through the op loop: emitted kernels, the global
rewrite map, the `computed` set, the kernel-name counter, and the (mutable)
program op list. -/
structure DriverState where
  kernels : List KernelInfo := []
  varRewrites : VarRewrites := {}
  computed : List Nat := []
  knum : Nat := 0
  ops : List Op := []
deriving DecidableEq, Inhabited

/-- Result of the forward scan for the companions of a `prng_step` op
(generate.cc lines 689-704). -/
structure PrngScanRes where
  sout : String := ""
  sout_pos : Nat := 0
  vout : String := ""
  adds : List Nat := []
deriving DecidableEq, Inhabited

/-- One step of the companion scan; matching companions are recorded and
marked computed (`adds`). -/
def prngScanStep (ops : List Op) (tup : String) (acc : PrngScanRes) (j : Nat) : PrngScanRes :=
  let nop := opAt ops j
  if nop.f.fn = "prng_state" ∧ nop.inputs = [tup] then
    { acc with sout := nop.output, sout_pos := j, adds := acc.adds ++ [j] }
  else if nop.f.fn = "prng_value" ∧ nop.inputs = [tup] then
    { acc with vout := nop.output, adds := acc.adds ++ [j] }
  else acc

/-- `for (size_t j = i + 1; j < prog.ops.size(); j++)`. -/
def prngScan (ops : List Op) (i : Nat) (tup : String) : PrngScanRes :=
  (List.range' (i + 1) (ops.length - (i + 1))).foldl (prngScanStep ops tup) {}

/-- `std::set::erase` on the sorted `computed` set. -/
def eraseSorted (a : Nat) (l : List Nat) : List Nat := l.filter (fun x => x ≠ a)

/-- The special-function branch of the driver loop
(generate.cc lines 683-724). -/
def specialStep (cl : Collab) (settings : HardwareSettings) (kid : String)
    (st : DriverState) (i : Nat) : Except String DriverState :=
  let op := opAt st.ops i
  if op.f.fn = "prng_state" ∨ op.f.fn = "prng_value" then
    .error "prng functions must come in threes"
  else if op.f.fn = "prng_step" then
    let res := prngScan st.ops i op.output
    let computed' := res.adds.foldl (fun s j => insertSorted j s) st.computed
    if res.vout = "" ∧ res.sout = "" then
      -- Skip the whole thing.
      .ok { st with computed := computed' }
    else if res.vout = "" then
      -- Convert the state output to an identity of the step's state input.
      let xop := opAt st.ops res.sout_pos
      let xf := { xop.f with fn := "ident" }
      let xop' := { xop with f := xf, inputs := xop.inputs.set 0 (op.inputs.getD 0 "") }
      .ok { st with ops := st.ops.set res.sout_pos xop',
                    computed := eraseSorted res.sout_pos computed' }
    else if res.sout = "" then
      .error "prng_step function missing its companions"
    else
      let df := { op.f with params := op.f.params ++ [res.sout, res.vout] }
      let dop := { op with f := df }
      let kname := kid ++ "_" ++ toString st.knum
      .ok { st with kernels := st.kernels ++ cl.genSpecial dop kname settings,
                    knum := st.knum + 1, computed := computed' }
  else
    let kname := kid ++ "_" ++ toString st.knum
    .ok { st with kernels := st.kernels ++ cl.genSpecial op kname settings,
                  knum := st.knum + 1 }

/-- The CONTRACTION branch of the driver loop (generate.cc lines 650-672). -/
def contractionStep (cl : Collab) (settings : HardwareSettings)
    (vars : String → Binding) (inputs outputs : List String) (udOps : List Op)
    (kid : String) (tile_trials : Nat) (st : DriverState) (i : Nat) :
    Except String DriverState :=
  let op := opAt st.ops i
  let tshapes := op.c.specs.map fun sp => (vars sp.id).shape
  let fl := cl.lowerC op.c tshapes
  let flat := { fl.1 with output := op.output }
  let kname := kid ++ "_" ++ toString st.knum
  if NeedsZero flat (tshapes.getD 0 default) then
    let prelude :=
      if op.c.use_default ≠ "" then
        cl.genCopy (tshapes.getD 0 default) op.output op.c.use_default ("copy_" ++ kname)
      else cl.genZero (tshapes.getD 0 default) op.output ("zero_" ++ kname)
    let flat2 := { flat with kernel_outputs := flat.kernel_outputs ++ [op.output] }
    (ContractionWrap cl settings vars tile_trials st.varRewrites [] (some op.c) flat2 kname).map
      fun ks => { st with knum := st.knum + 1, kernels := st.kernels ++ prelude :: ks }
  else
    match DoUnification flat st.computed st.varRewrites [] st.ops udOps i vars inputs outputs fl.2 with
    | .error e => .error e
    | .ok r =>
      (ContractionWrap cl settings vars tile_trials r.2.2.1 r.2.2.2 (some op.c) r.1 kname).map
        fun ks => { st with knum := st.knum + 1, kernels := st.kernels ++ ks,
                            computed := r.2.1, varRewrites := r.2.2.1 }

/-- The elementwise branch of the driver loop (generate.cc lines 726-767):
synthesize a trivial flat contraction from the op's output shape, unify,
and wrap. -/
def elementwiseStep (cl : Collab) (settings : HardwareSettings)
    (vars : String → Binding) (inputs outputs : List String) (udOps : List Op)
    (kid : String) (tile_trials : Nat) (st : DriverState) (i : Nat) :
    Except String DriverState :=
  let op := opAt st.ops i
  let shape := (vars op.output).shape
  let names := (List.range shape.dims.length).map fun idx => "i" ++ toString (idx + 1)
  let out_poly : List Poly := names.map Poly.var
  let access : FlatTensorAccess :=
    { offset := 0, global_index_limit := shape.elem_size, vector := 1,
      strides := shape.dims.map (fun d => d.stride) }
  let flat : FlatContraction :=
    { generate_contraction := false, output := op.output, names := names,
      ranges := shape.dims.map (fun d => d.size), access := [access] }
  match DoUnification flat st.computed st.varRewrites [] st.ops udOps i vars inputs outputs out_poly with
  | .error e => .error e
  | .ok r =>
    let kname := kid ++ "_" ++ toString st.knum
    (ContractionWrap cl settings vars tile_trials r.2.2.1 r.2.2.2 none r.1 kname).map
      fun ks => { st with knum := st.knum + 1, kernels := st.kernels ++ ks,
                          computed := r.2.1, varRewrites := r.2.2.1 }

/-- One iteration of `for (size_t i = 0; i < prog.ops.size(); i++)`. -/
def compileStep (cl : Collab) (settings : HardwareSettings)
    (vars : String → Binding) (inputs outputs : List String) (udOps : List Op)
    (kid : String) (tile_trials : Nat) (st : DriverState) (i : Nat) :
    Except String DriverState :=
  let op := opAt st.ops i
  if op.tag = OpTag.CONTRACTION then
    contractionStep cl settings vars inputs outputs udOps kid tile_trials st i
  else if op.tag = OpTag.CONSTANT then .ok st
  else if i ∈ st.computed then .ok st
  else if isSpecial op.f then specialStep cl settings kid st i
  else elementwiseStep cl settings vars inputs outputs udOps kid tile_trials st i

/-- `Compile` (the driver): `vars` models the result of `BindProgram`
(modelled from the spec as a total binding map — `BindProgram` lives outside
the sources under test and guarantees every referenced name is bound).  The
final `types` pruning copies diagnostic shape info only and is omitted. -/
def Compile (cl : Collab) (settings : HardwareSettings) (prog : List Op)
    (vars : String → Binding) (inputs outputs : List String) (kid : String)
    (tile_trials : Nat) : Except String KernelList := do
  let stF ← (List.range prog.length).foldlM
    (compileStep cl settings vars inputs outputs prog kid tile_trials)
    ({ ops := prog } : DriverState)
  .ok { kernels := stF.kernels, var_rewrites := stF.varRewrites }

/-- The id sanitization in `GenerateProgram` (generate.cc lines 787-794):
prefix `kernel_` and replace every non-alphanumeric character by `'_'`. -/
def sanitizeKid (id : String) : String :=
  "kernel_" ++ String.mk (id.data.map (fun c => if c.isAlpha || c.isDigit then c else '_'))

/-- `GenerateProgram` (generate.cc lines 782-801).  The final
`Simplify(r.kernels)` is textual cleanup by an external collaborator and is
omitted. -/
def GenerateProgram (cl : Collab) (settings : HardwareSettings) (prog : List Op)
    (vars : String → Binding) (inputs outputs : List String) (id : String)
    (tile_trials : Nat) : Except String KernelList :=
  Compile cl settings prog vars inputs outputs (sanitizeKid id) tile_trials

/-! ## Concrete instances used to evaluate the definitions

A small tensor binding environment and a concrete collaborator record
(instantiating the spec-modelled interfaces of §6 in the simplest way
consistent with the spec: each emitter names its kernel by the `kname`
argument, `TileOptimize` offers a single tile). -/

def mockShape : TensorShape := { tbytes := 4, dims := [{ size := 4, stride := 1 }] }

def mockBinding : Binding := { tag := BindingTag.TENSOR, shape := mockShape }

def varsMock : String → Binding := fun _ => mockBinding

def mockCollab : Collab where
  lowerC := fun _ _ =>
    ({ names := [], ranges := [],
       access := [{ offset := 1, strides := [], global_index_limit := 1 }] }, [])
  vectorize := fun f _ => f
  tileOptimize := fun _ _ _ _ => [[1]]
  genContract := fun k _ _ _ _ => { kname := k }
  tileStats := fun _ _ _ => {}
  genZero := fun _ n k => { kname := k, outputs := [n] }
  genCopy := fun _ d _ k => { kname := k, outputs := [d] }
  genSpecial := fun _ k _ => [{ kname := k }]
  keyString := fun _ => ""

def mockSettings : HardwareSettings := { vec_size := 1 }

/-- A flat contraction whose output access admits the merge of index 0 into
index 1 (`strides0[0] = ranges[1]·strides0[1] = 3`), whose slot-1 access
matches the output perfectly, and whose slot-2 access has stride 0 at both
indices. -/
def exFlatC1 : FlatContraction :=
  { names := ["a", "b"], ranges := [2, 3],
    access := [ { offset := 0, strides := [3, 1], global_index_limit := 6 },
                { offset := 0, strides := [3, 1], global_index_limit := 6 },
                { offset := 0, strides := [0, 0], global_index_limit := 1 } ] }

/-- A flat contraction with a single constraint touching only index `j`,
which has output stride 0 (output-only in the spec's sense), while the
output pattern is a perfect contiguous tiling. -/
def exFlatC2 : FlatContraction :=
  { names := ["i", "j"], ranges := [4, 4],
    access := [ { offset := 0, strides := [1, 0], global_index_limit := 4 } ],
    constraints := [ { lhs := [0, 1], rhs := 3 } ] }

def exConC2 : FlatConstraint := { lhs := [0, 1], rhs := 3 }

/-- A flat contraction with a constraint that touches only index `i`, which
has a nonzero output stride (output-only in the source's sense). -/
def flatC2w : FlatContraction :=
  { names := ["i"], ranges := [4],
    access := [ { offset := 0, strides := [1], global_index_limit := 999 } ],
    constraints := [ { lhs := [1], rhs := 2 } ] }

def conC2w : FlatConstraint := { lhs := [1], rhs := 2 }

/-- A perfectly contiguous single-index flat contraction (no constraints). -/
def flatC3w : FlatContraction :=
  { names := ["i"], ranges := [2],
    access := [ { offset := 0, strides := [1], global_index_limit := 2 } ] }

/-- A single contraction op; with `mockCollab.lowerC` its lowered flat form
has `offset = 1`, so `NeedsZero` holds. -/
def opC9 : Op :=
  { tag := OpTag.CONTRACTION, output := "O", inputs := [],
    c := { specs := [{ id := "O" }, { id := "A" }] } }

/-- Three elementwise ops: op 0 (the root) and op 1 both read program input
`x`; op 2 reads both of their outputs.  With `previously_computed = {1}`,
the planner unifies `{0, 2}` and leaves op 1 outside. -/
def opsC5 : List Op :=
  [ { tag := OpTag.FUNCTION, output := "r", inputs := ["x"], f := { fn := "add" } },
    { tag := OpTag.FUNCTION, output := "m", inputs := ["x"], f := { fn := "mul" } },
    { tag := OpTag.FUNCTION, output := "z", inputs := ["r", "m"], f := { fn := "add" } } ]

/-- A single reshape op whose output is not a program output. -/
def opsC6 : List Op :=
  [ { tag := OpTag.FUNCTION, output := "y", inputs := ["x"], f := { fn := "reshape" } } ]

/-- A chain of two reshapes `a → b → c`. -/
def opsC7 : List Op :=
  [ { tag := OpTag.FUNCTION, output := "b", inputs := ["a"], f := { fn := "reshape" } },
    { tag := OpTag.FUNCTION, output := "c", inputs := ["b"], f := { fn := "reshape" } } ]

/-- A `prng_state` op with no preceding `prng_step`. -/
def opsC8 : List Op :=
  [ { tag := OpTag.FUNCTION, output := "s", inputs := ["t"], f := { fn := "prng_state" } } ]

/-- A lone `prng_step` op whose tuple output has no consumers. -/
def opsC10 : List Op :=
  [ { tag := OpTag.FUNCTION, output := "t", inputs := ["s", "n"], f := { fn := "prng_step" } } ]

/-- Op `j` is a `prng_state` consumer of the tuple `tup`
(`nop.f.fn == "prng_state" && nop.inputs.size() == 1 && nop.inputs[0] == tup`). -/
def stateConsumerAt (ops : List Op) (tup : String) (j : Nat) : Prop :=
  (opAt ops j).f.fn = "prng_state" ∧ (opAt ops j).inputs = [tup]

/-- Op `j` is a `prng_value` consumer of the tuple `tup`. -/
def valueConsumerAt (ops : List Op) (tup : String) (j : Nat) : Prop :=
  (opAt ops j).f.fn = "prng_value" ∧ (opAt ops j).inputs = [tup]

instance (ops : List Op) (tup : String) (j : Nat) : Decidable (stateConsumerAt ops tup j) := by
  unfold stateConsumerAt; infer_instance

instance (ops : List Op) (tup : String) (j : Nat) : Decidable (valueConsumerAt ops tup j) := by
  unfold valueConsumerAt; infer_instance

/-- The kernel-name forms produced by the driver for base name `kid`:
`<kid>_<n>`, `zero_<kid>_<n>` or `copy_<kid>_<n>` for some counter value. -/
def NameOk (kid : String) (k : KernelInfo) : Prop :=
  ∃ n : Nat, k.kname = kid ++ "_" ++ toString n ∨
    k.kname = "zero_" ++ (kid ++ "_" ++ toString n) ∨
    k.kname = "copy_" ++ (kid ++ "_" ++ toString n)

/-- Closure property of a set `S` at op `u`: every input of `u` defined by
an op at or after the root is either in `S` or fails `OpCanBeUnified`. -/
def UClosed (ops udOps : List Op) (vars : String → Binding) (root : Nat)
    (S : Nat → Prop) (u : Nat) : Prop :=
  ∀ input ∈ (opAt ops u).inputs, ∀ i, op_defs udOps input = some i → root ≤ i →
    S i ∨ OpCanBeUnified ops vars root i = false

/-! # Theorems -/

/-! ## C1: the dead `both_zeros` disjunct in `SimplifyFlat` -/

/-- C1: the claim states that when the output access admits the merge of
index `i` into index `j` and every other access satisfies the safety
disjunction (perfect match, or zero strides at both indices), the merge is
performed.  On `exFlatC1` the candidate pair `(0, 1)` satisfies all of the
claim's conditions — slot 1 matches perfectly and slot 2 has both strides
zero — yet the source's `SimplifyFlat` performs no merge at all, because its
`is_safe` returns `perfect_match || perfect_match`, never consulting the
`both_zeros` value it computes.  The search using the spec's intended check
would merge `(0, 1)`. -/
theorem simplifyFlat_bothZeros_dead :
    (∀ a ∈ exFlatC1.access.drop 1, SpecSafePair exFlatC1 0 1 a) ∧
    strideAt exFlatC1 0 = (exFlatC1.ranges.getD 1 0 : Int) * strideAt exFlatC1 1 ∧
    strideAt exFlatC1 0 ≠ 0 ∧ strideAt exFlatC1 1 ≠ 0 ∧
    exFlatC1.constraints = [] ∧ exFlatC1.post_op_inputs = [] ∧
    SimplifyFlat exFlatC1 = none ∧
    mergePairIntended exFlatC1 = some (0, 1) := by
  decide

/-! ## C2: which constraints force `NeedsZero` -/

/-- C2 counterexample: `exFlatC2` contains a constraint that is output-only
in the spec's sense (every index with a nonzero coefficient has output
stride 0), yet `NeedsZero` returns `false`: the source's `output_only` flag
is cleared exactly when a nonzero coefficient sits at a zero-stride index,
i.e. the source tests the opposite polarity. -/
theorem needsZero_specOutputOnly_cex :
    SpecOutputOnly exFlatC2 exConC2 ∧ exConC2 ∈ exFlatC2.constraints ∧
    NeedsZero exFlatC2 {} = false := by
  decide

/-- C2 (amended): for every flat contraction containing a constraint that is
output-only in the source's sense — every index with a nonzero constraint
coefficient has a *nonzero* output stride — `NeedsZero` returns `true`. -/
theorem needsZero_of_outputOnly (flat : FlatContraction) (ts : TensorShape)
    (fc : FlatConstraint) (hmem : fc ∈ flat.constraints)
    (hoo : outputOnlyB flat fc = true) : NeedsZero flat ts = true := by
  unfold NeedsZero
  by_cases hoff : (acc0 flat).offset ≠ 0
  · rw [if_pos hoff]
  · rw [if_neg hoff]
    cases hcol : collectPatternL flat (List.range flat.names.length) with
    | none => rfl
    | some pat =>
      have hany : flat.constraints.any (fun fc => outputOnlyB flat fc) = true :=
        List.any_eq_true.mpr ⟨fc, hmem, hoo⟩
      rw [hany]
      rfl

/-- Witness for `needsZero_of_outputOnly` at `flatC2w`. -/
theorem needsZero_of_outputOnly_witness :
    conC2w ∈ flatC2w.constraints ∧ outputOnlyB flatC2w conC2w = true ∧
    NeedsZero flatC2w {} = true :=
  ⟨by decide, by decide, needsZero_of_outputOnly flatC2w {} conC2w (by decide) (by decide)⟩

/-! ## C3: characterization of `NeedsZero` without constraints -/

theorem collectPatternL_eq_none (flat : FlatContraction) :
    ∀ l : List Nat, collectPatternL flat l = none ↔ ∃ i ∈ l, strideAt flat i < 0 := by
  intro l
  induction l with
  | nil => simp [collectPatternL]
  | cons i rest ih =>
    simp only [collectPatternL]
    by_cases h0 : strideAt flat i = 0
    · rw [if_pos h0, ih]
      constructor
      · rintro ⟨j, hj, hneg⟩
        exact ⟨j, List.mem_cons_of_mem _ hj, hneg⟩
      · rintro ⟨j, hj, hneg⟩
        rcases List.mem_cons.mp hj with rfl | hj
        · omega
        · exact ⟨j, hj, hneg⟩
    · rw [if_neg h0]
      by_cases hneg : strideAt flat i < 0
      · rw [if_pos hneg]
        simp only [true_iff]
        exact ⟨i, List.mem_cons_self i rest, hneg⟩
      · rw [if_neg hneg, Option.map_eq_none', ih]
        constructor
        · rintro ⟨j, hj, hnegj⟩
          exact ⟨j, List.mem_cons_of_mem _ hj, hnegj⟩
        · rintro ⟨j, hj, hnegj⟩
          rcases List.mem_cons.mp hj with rfl | hj
          · exact absurd hnegj hneg
          · exact ⟨j, hj, hnegj⟩

theorem collectPatternL_eq_some (flat : FlatContraction) :
    ∀ l : List Nat, (∀ i ∈ l, ¬ strideAt flat i < 0) →
    collectPatternL flat l = some (l.filterMap fun i =>
      if strideAt flat i ≠ 0 then some ((strideAt flat i).toNat, flat.ranges.getD i 0)
      else none) := by
  intro l
  induction l with
  | nil => intro _; simp [collectPatternL]
  | cons i rest ih =>
    intro h
    have hrest := ih (fun j hj => h j (List.mem_cons_of_mem _ hj))
    have hneg : ¬ strideAt flat i < 0 := h i (List.mem_cons_self i rest)
    simp only [collectPatternL, List.filterMap_cons]
    by_cases h0 : strideAt flat i = 0
    · rw [if_pos h0, hrest]
      simp [h0]
    · rw [if_neg h0, if_neg hneg, hrest]
      simp [h0]

/-- C3: for a well-formed flat contraction with no constraints, `NeedsZero`
returns true iff the output offset is nonzero, some output stride is
negative, or the contiguity walk over the sorted `(stride, range)` pairs of
the nonzero-stride indices fails to tile `[0, global_index_limit)`. -/
theorem needsZero_empty_constraints_iff (flat : FlatContraction) (ts : TensorShape)
    (hc : flat.constraints = []) :
    NeedsZero flat ts = true ↔
      ((acc0 flat).offset ≠ 0 ∨
       (∃ i, i < flat.names.length ∧ strideAt flat i < 0) ∨
       walkOk (acc0 flat).global_index_limit 1 (sortPairs (nonzeroPattern flat)) = false) := by
  unfold NeedsZero
  by_cases hoff : (acc0 flat).offset ≠ 0
  · rw [if_pos hoff]
    simp [hoff]
  · rw [if_neg hoff]
    by_cases hneg : ∃ i ∈ List.range flat.names.length, strideAt flat i < 0
    · rw [(collectPatternL_eq_none flat _).mpr hneg]
      obtain ⟨i, hi, hin⟩ := hneg
      simp only [true_iff]
      exact Or.inr (Or.inl ⟨i, List.mem_range.mp hi, hin⟩)
    · have hnn : ∀ i ∈ List.range flat.names.length, ¬ strideAt flat i < 0 := by
        intro j hj hnegj
        exact hneg ⟨j, hj, hnegj⟩
      rw [collectPatternL_eq_some flat _ hnn, hc]
      have hex : ¬ ∃ i, i < flat.names.length ∧ strideAt flat i < 0 := by
        rintro ⟨i, hi, hin⟩
        exact hneg ⟨i, List.mem_range.mpr hi, hin⟩
      simp only [List.any_nil, if_neg (by exact Bool.false_ne_true), hoff, hex,
        false_or, nonzeroPattern]
      cases hwalk : walkOk (acc0 flat).global_index_limit 1
          (sortPairs ((List.range flat.names.length).filterMap fun i =>
            if strideAt flat i ≠ 0 then some ((strideAt flat i).toNat, flat.ranges.getD i 0)
            else none)) <;> simp

/-- Witness for `needsZero_empty_constraints_iff` at `flatC3w`. -/
theorem needsZero_empty_constraints_iff_witness :
    NeedsZero flatC3w {} = true ↔
      ((acc0 flatC3w).offset ≠ 0 ∨
       (∃ i, i < flatC3w.names.length ∧ strideAt flatC3w i < 0) ∨
       walkOk (acc0 flatC3w).global_index_limit 1 (sortPairs (nonzeroPattern flatC3w)) = false) :=
  needsZero_empty_constraints_iff flatC3w {} (by decide)

/-! ## C5: closure of the unification planner -/

theorem mem_insertSorted {x a : Nat} :
    ∀ {l : List Nat}, x ∈ insertSorted a l ↔ x = a ∨ x ∈ l := by
  intro l
  induction l with
  | nil => simp [insertSorted]
  | cons b t ih =>
    simp only [insertSorted]
    by_cases h1 : a < b
    · rw [if_pos h1]; simp
    · rw [if_neg h1]
      by_cases h2 : a = b
      · subst h2
        rw [if_pos rfl]
        simp only [List.mem_cons]
        tauto
      · rw [if_neg h2]
        simp only [List.mem_cons, ih]
        tauto

theorem mem_unionSorted {x : Nat} :
    ∀ (c l : List Nat), x ∈ unionSorted c l ↔ x ∈ c ∨ x ∈ l := by
  intro c
  induction c with
  | nil => intro l; simp [unionSorted]
  | cons a t ih =>
    intro l
    have hstep : unionSorted (a :: t) l = unionSorted t (insertSorted a l) := rfl
    rw [hstep, ih, mem_insertSorted]
    simp only [List.mem_cons]
    tauto

theorem opCanBeUnified_constant (ops : List Op) (vars : String → Binding) (root i : Nat)
    (h : (opAt ops i).tag = OpTag.CONSTANT) : OpCanBeUnified ops vars root i = false := by
  unfold OpCanBeUnified
  rw [if_pos]
  refine Or.inl ?_
  rw [h]
  intro hcon
  exact OpTag.noConfusion hcon

theorem UClosed.mono {ops udOps : List Op} {vars : String → Binding} {root : Nat}
    {S T : Nat → Prop} (h : ∀ i, S i → T i) {u : Nat} :
    UClosed ops udOps vars root S u → UClosed ops udOps vars root T u := by
  intro hc input hin i hdef hge
  rcases hc input hin i hdef hge with hS | hF
  · exact Or.inl (h i hS)
  · exact Or.inr hF

theorem scanInputs_spec (ops udOps : List Op) (vars : String → Binding) (root : Nat)
    (prev unified : List Nat) :
    ∀ (l : List String) (cands pushes c' p' : List Nat),
      scanInputs ops udOps vars root prev unified l cands pushes = some (c', p') →
      (∀ x ∈ cands, x ∈ c') ∧
      (∀ x ∈ pushes, x ∈ p') ∧
      (∀ x ∈ c', x ∈ cands ∨ x ∈ p') ∧
      (∀ x ∈ p', x ∈ pushes ∨ x ∈ c') ∧
      (∀ input ∈ l, ∀ i, op_defs udOps input = some i → ¬ i < root →
        i ∈ unified ∨ i ∈ prev ∨ i ∈ c' ∨ OpCanBeUnified ops vars root i = false) := by
  intro l
  induction l with
  | nil =>
    intro cands pushes c' p' h
    simp only [scanInputs, Option.some.injEq, Prod.mk.injEq] at h
    obtain ⟨rfl, rfl⟩ := h
    exact ⟨fun x hx => hx, fun x hx => hx, fun x hx => Or.inl hx, fun x hx => Or.inl hx, by simp⟩
  | cons input rest ih =>
    intro cands pushes c' p' h
    cases hdef : op_defs udOps input with
    | none =>
      simp only [scanInputs, hdef] at h
      obtain ⟨m1, m0, m2, m3, m4⟩ := ih cands pushes c' p' h
      refine ⟨m1, m0, m2, m3, ?_⟩
      intro inp hin i hdi hge
      rcases List.mem_cons.mp hin with rfl | hin
      · rw [hdef] at hdi; exact Option.noConfusion hdi
      · exact m4 inp hin i hdi hge
    | some i0 =>
      simp only [scanInputs, hdef] at h
      by_cases hskip : i0 < root ∨ i0 ∈ unified ∨ i0 ∈ cands ∨ i0 ∈ prev
      · rw [if_pos hskip] at h
        obtain ⟨m1, m0, m2, m3, m4⟩ := ih cands pushes c' p' h
        refine ⟨m1, m0, m2, m3, ?_⟩
        intro inp hin i hdi hge
        rcases List.mem_cons.mp hin with rfl | hin
        · rw [hdef] at hdi
          injection hdi with e
          subst e
          rcases hskip with h1 | h2 | h3 | h4
          · exact absurd h1 hge
          · exact Or.inl h2
          · exact Or.inr (Or.inr (Or.inl (m1 _ h3)))
          · exact Or.inr (Or.inl h4)
        · exact m4 inp hin i hdi hge
      · rw [if_neg hskip] at h
        by_cases hconst : (opAt ops i0).tag = OpTag.CONSTANT
        · rw [if_pos hconst] at h
          obtain ⟨m1, m0, m2, m3, m4⟩ := ih cands pushes c' p' h
          refine ⟨m1, m0, m2, m3, ?_⟩
          intro inp hin i hdi hge
          rcases List.mem_cons.mp hin with rfl | hin
          · rw [hdef] at hdi
            injection hdi with e
            subst e
            exact Or.inr (Or.inr (Or.inr (opCanBeUnified_constant ops vars root i0 hconst)))
          · exact m4 inp hin i hdi hge
        · rw [if_neg hconst] at h
          by_cases hocbu : OpCanBeUnified ops vars root i0 = true
          · rw [if_pos hocbu] at h
            obtain ⟨m1, m0, m2, m3, m4⟩ := ih (insertSorted i0 cands) (pushes ++ [i0]) c' p' h
            have hi0c' : i0 ∈ c' := m1 i0 (mem_insertSorted.mpr (Or.inl rfl))
            have hi0p' : i0 ∈ p' := m0 i0 (List.mem_append.mpr (Or.inr (List.mem_singleton.mpr rfl)))
            refine ⟨?_, ?_, ?_, ?_, ?_⟩
            · intro x hx
              exact m1 x (mem_insertSorted.mpr (Or.inr hx))
            · intro x hx
              exact m0 x (List.mem_append.mpr (Or.inl hx))
            · intro x hx
              rcases m2 x hx with hmem | hp
              · rcases mem_insertSorted.mp hmem with rfl | hxc
                · exact Or.inr hi0p'
                · exact Or.inl hxc
              · exact Or.inr hp
            · intro x hx
              rcases m3 x hx with hmem | hc
              · rcases List.mem_append.mp hmem with hp | hx0
                · exact Or.inl hp
                · have hxe : x = i0 := List.mem_singleton.mp hx0
                  subst hxe
                  exact Or.inr hi0c'
              · exact Or.inr hc
            · intro inp hin i hdi hge
              rcases List.mem_cons.mp hin with rfl | hin
              · rw [hdef] at hdi
                injection hdi with e
                subst e
                exact Or.inr (Or.inr (Or.inl hi0c'))
              · exact m4 inp hin i hdi hge
          · rw [if_neg hocbu] at h
            exact Option.noConfusion h

theorem ccCand_spec (ops udOps : List Op) (vars : String → Binding) (root : Nat)
    (prev unified : List Nat) :
    ∀ (fuel : Nat) (cands frontier C : List Nat),
      (∀ x ∈ frontier, x ∈ cands) →
      (∀ c ∈ cands, c ∈ frontier ∨
        UClosed ops udOps vars root (fun i => i ∈ unified ∨ i ∈ prev ∨ i ∈ cands) c) →
      ccCand ops udOps vars root prev unified fuel cands frontier = some (some C) →
      (∀ x ∈ cands, x ∈ C) ∧
      (∀ c ∈ C, UClosed ops udOps vars root (fun i => i ∈ unified ∨ i ∈ prev ∨ i ∈ C) c) := by
  intro fuel
  induction fuel with
  | zero =>
    intro cands frontier C hfc hinv h
    cases frontier with
    | nil =>
      simp only [ccCand, Option.some.injEq] at h
      subst h
      refine ⟨fun x hx => hx, ?_⟩
      intro c hc
      rcases hinv c hc with hf | hcl
      · exact absurd hf (List.not_mem_nil c)
      · exact hcl
    | cons c rest => simp [ccCand] at h
  | succ fuel ih =>
    intro cands frontier C hfc hinv h
    cases frontier with
    | nil =>
      simp only [ccCand, Option.some.injEq] at h
      subst h
      refine ⟨fun x hx => hx, ?_⟩
      intro c hc
      rcases hinv c hc with hf | hcl
      · exact absurd hf (List.not_mem_nil c)
      · exact hcl
    | cons c rest =>
      simp only [ccCand] at h
      cases hscan : scanInputs ops udOps vars root prev unified (opAt ops c).inputs cands [] with
      | none => rw [hscan] at h; exact Option.noConfusion (Option.some.inj h)
      | some pr =>
        obtain ⟨cands', pushes⟩ := pr
        rw [hscan] at h
        obtain ⟨m1, m0, m2, m3, m4⟩ := scanInputs_spec ops udOps vars root prev unified
          (opAt ops c).inputs cands [] cands' pushes hscan
        have hcands_sub : ∀ x ∈ cands, x ∈ cands' := m1
        have hpush_sub : ∀ x ∈ pushes, x ∈ cands' := by
          intro x hx
          rcases m3 x hx with hnil | hc'
          · exact absurd hnil (List.not_mem_nil x)
          · exact hc'
        have hcClosed : UClosed ops udOps vars root
            (fun i => i ∈ unified ∨ i ∈ prev ∨ i ∈ cands') c := by
          intro input hin i hdi hge
          rcases m4 input hin i hdi (Nat.not_lt.mpr hge) with h1 | h1 | h1 | h1
          · exact Or.inl (Or.inl h1)
          · exact Or.inl (Or.inr (Or.inl h1))
          · exact Or.inl (Or.inr (Or.inr h1))
          · exact Or.inr h1
        have hinv1 : ∀ x ∈ pushes.reverse ++ rest, x ∈ cands' := by
          intro x hx
          rcases List.mem_append.mp hx with hp | hr
          · exact hpush_sub x (List.mem_reverse.mp hp)
          · exact hcands_sub x (hfc x (List.mem_cons_of_mem _ hr))
        have hinv2 : ∀ x ∈ cands', x ∈ pushes.reverse ++ rest ∨
            UClosed ops udOps vars root (fun i => i ∈ unified ∨ i ∈ prev ∨ i ∈ cands') x := by
          intro x hx
          rcases m2 x hx with hxc | hxp
          · rcases hinv x hxc with hxf | hxcl
            · rcases List.mem_cons.mp hxf with rfl | hxr
              · exact Or.inr hcClosed
              · exact Or.inl (List.mem_append.mpr (Or.inr hxr))
            · refine Or.inr (UClosed.mono ?_ hxcl)
              intro i hi
              rcases hi with h1 | h1 | h1
              · exact Or.inl h1
              · exact Or.inr (Or.inl h1)
              · exact Or.inr (Or.inr (hcands_sub i h1))
          · exact Or.inl (List.mem_append.mpr (Or.inl (List.mem_reverse.mpr hxp)))
        obtain ⟨r1, r2⟩ := ih cands' (pushes.reverse ++ rest) C hinv1 hinv2 h
        exact ⟨fun x hx => r1 x (hcands_sub x hx), r2⟩

theorem ccConsumers_spec (ops udOps : List Op) (vars : String → Binding) (root : Nat)
    (prev : List Nat) (fuel : Nat) :
    ∀ (consumers unified frontier unified' frontier' : List Nat),
      (∀ x ∈ frontier, x ∈ unified) →
      (∀ u ∈ unified, u = root ∨
        UClosed ops udOps vars root (fun i => i ∈ unified ∨ i ∈ prev) u) →
      ccConsumers ops udOps vars root prev fuel unified frontier consumers =
        some (unified', frontier') →
      (∀ x ∈ unified, x ∈ unified') ∧
      (∀ x ∈ frontier', x ∈ unified') ∧
      (∀ u ∈ unified', u = root ∨
        UClosed ops udOps vars root (fun i => i ∈ unified' ∨ i ∈ prev) u) := by
  intro consumers
  induction consumers with
  | nil =>
    intro unified frontier unified' frontier' hfu hinv h
    simp only [ccConsumers, Option.some.injEq, Prod.mk.injEq] at h
    obtain ⟨rfl, rfl⟩ := h
    exact ⟨fun x hx => hx, hfu, hinv⟩
  | cons cst rest ih =>
    intro unified frontier unified' frontier' hfu hinv h
    simp only [ccConsumers] at h
    by_cases hskip : cst ∈ unified ∨ OpCanBeUnified ops vars root cst = false ∨ cst ∈ prev
    · rw [if_pos hskip] at h
      exact ih unified frontier unified' frontier' hfu hinv h
    · rw [if_neg hskip] at h
      cases hcand : ccCand ops udOps vars root prev unified fuel [cst] [cst] with
      | none => rw [hcand] at h; exact Option.noConfusion h
      | some o =>
        rw [hcand] at h
        cases o with
        | none => exact ih unified frontier unified' frontier' hfu hinv h
        | some cands =>
          obtain ⟨c1, c2⟩ := ccCand_spec ops udOps vars root prev unified fuel
            [cst] [cst] cands (fun x hx => hx) (fun c hc => Or.inl hc) hcand
          have hsub2 : ∀ x ∈ unified, x ∈ unionSorted cands unified := by
            intro x hx
            exact (mem_unionSorted cands unified).mpr (Or.inr hx)
          have hsubc : ∀ x ∈ cands, x ∈ unionSorted cands unified := by
            intro x hx
            exact (mem_unionSorted cands unified).mpr (Or.inl hx)
          have hinv1 : ∀ x ∈ cands.reverse ++ frontier, x ∈ unionSorted cands unified := by
            intro x hx
            rcases List.mem_append.mp hx with hp | hr
            · exact hsubc x (List.mem_reverse.mp hp)
            · exact hsub2 x (hfu x hr)
          have hinv2 : ∀ u ∈ unionSorted cands unified, u = root ∨
              UClosed ops udOps vars root
                (fun i => i ∈ unionSorted cands unified ∨ i ∈ prev) u := by
            intro u hu
            rcases (mem_unionSorted cands unified).mp hu with hc | hun
            · refine Or.inr (UClosed.mono ?_ (c2 u hc))
              intro i hi
              rcases hi with h1 | h1 | h1
              · exact Or.inl (hsub2 i h1)
              · exact Or.inr h1
              · exact Or.inl (hsubc i h1)
            · rcases hinv u hun with hroot | hcl
              · exact Or.inl hroot
              · refine Or.inr (UClosed.mono ?_ hcl)
                intro i hi
                rcases hi with h1 | h1
                · exact Or.inl (hsub2 i h1)
                · exact Or.inr h1
          obtain ⟨r1, r2, r3⟩ := ih (unionSorted cands unified) (cands.reverse ++ frontier)
            unified' frontier' hinv1 hinv2 h
          exact ⟨fun x hx => r1 x (hsub2 x hx), r2, r3⟩

theorem ccMain_spec (ops udOps : List Op) (vars : String → Binding) (root : Nat)
    (prev : List Nat) :
    ∀ (fuel : Nat) (unified frontier U : List Nat),
      (∀ x ∈ frontier, x ∈ unified) →
      (∀ u ∈ unified, u = root ∨
        UClosed ops udOps vars root (fun i => i ∈ unified ∨ i ∈ prev) u) →
      ccMain ops udOps vars root prev fuel unified frontier = some U →
      ∀ u ∈ U, u = root ∨
        UClosed ops udOps vars root (fun i => i ∈ U ∨ i ∈ prev) u := by
  intro fuel
  induction fuel with
  | zero =>
    intro unified frontier U hfu hinv h
    cases frontier with
    | nil =>
      simp only [ccMain, Option.some.injEq] at h
      subst h
      exact hinv
    | cons u rest => simp [ccMain] at h
  | succ fuel ih =>
    intro unified frontier U hfu hinv h
    cases frontier with
    | nil =>
      simp only [ccMain, Option.some.injEq] at h
      subst h
      exact hinv
    | cons u rest =>
      simp only [ccMain] at h
      cases hcons : ccConsumers ops udOps vars root prev (fuel + 1) unified rest
          (usesOf udOps (opAt ops u).output) with
      | none => rw [hcons] at h; exact Option.noConfusion h
      | some pr =>
        obtain ⟨unified₁, frontier₁⟩ := pr
        rw [hcons] at h
        obtain ⟨r1, r2, r3⟩ := ccConsumers_spec ops udOps vars root prev (fuel + 1)
          (usesOf udOps (opAt ops u).output) unified rest unified₁ frontier₁
          (fun x hx => hfu x (List.mem_cons_of_mem _ hx)) hinv hcons
        exact ih unified₁ frontier₁ U r2 r3 h

/-- C5 counterexample: the claim omits the previously-computed set.  With
`previously_computed = {1}`, the planner returns `U = {0, 2}`; op 2 has
tensor input `m` defined by op `1 ≥ root`, yet `1 ∉ U` and
`OpCanBeUnified(0, 1)` holds. -/
theorem connectedComponents_closure_cex :
    ConnectedComponents opsC5 opsC5 varsMock 0 [1] 4 = some [0, 2] ∧
    (2 : Nat) ∈ ([0, 2] : List Nat) ∧ (2 : Nat) ≠ 0 ∧
    "m" ∈ (opAt opsC5 2).inputs ∧ (varsMock "m").tag = BindingTag.TENSOR ∧
    op_defs opsC5 "m" = some 1 ∧ (0 : Nat) ≤ 1 ∧
    ¬ (1 : Nat) ∈ ([0, 2] : List Nat) ∧
    OpCanBeUnified opsC5 varsMock 0 1 = true := by
  decide

/-- C5 (amended): after `ConnectedComponents` returns `U`, every op `u ∈ U`
other than the root has each input defined by an op `i ≥ root_opidx` either
in `U`, in the previously-computed set, or failing `OpCanBeUnified(root, i)`
(the statement covers all inputs, hence in particular the tensor inputs of
the claim). -/
theorem connectedComponents_closure (ops udOps : List Op) (vars : String → Binding)
    (root : Nat) (prev : List Nat) (fuel : Nat) (U : List Nat)
    (h : ConnectedComponents ops udOps vars root prev fuel = some U) :
    ∀ u ∈ U, u ≠ root → ∀ input ∈ (opAt ops u).inputs, ∀ i,
      op_defs udOps input = some i → root ≤ i →
      i ∈ U ∨ i ∈ prev ∨ OpCanBeUnified ops vars root i = false := by
  intro u hu hne input hin i hdef hge
  have hmain := ccMain_spec ops udOps vars root prev fuel [root] [root] U
    (fun x hx => hx) (fun v hv => Or.inl (List.mem_singleton.mp hv)) h u hu
  rcases hmain with rfl | hcl
  · exact absurd rfl hne
  · rcases hcl input hin i hdef hge with hS | hF
    · rcases hS with h1 | h2
      · exact Or.inl h1
      · exact Or.inr (Or.inl h2)
    · exact Or.inr (Or.inr hF)

/-- Witness for `connectedComponents_closure` on `opsC5`, instantiated at
the unified op 2 and its input `m` defined by op 1. -/
theorem connectedComponents_closure_witness :
    (1 : Nat) ∈ ([0, 2] : List Nat) ∨ (1 : Nat) ∈ ([1] : List Nat) ∨
    OpCanBeUnified opsC5 varsMock 0 1 = false :=
  connectedComponents_closure opsC5 opsC5 varsMock 0 [1] 4 [0, 2] (by decide)
    2 (by decide) (by decide) "m" (by decide) 1 (by decide) (by decide)

/-! ## C6, C7: reshape/ident elision in `DoUnification` -/

/-- Shared helper: the loop body of `DoUnification` on a reshape/ident op
that passes the validations reduces to a single conditional — elide exactly
when the op's output is not a program output or the looked-up input is
neither a program output nor a program input, otherwise emit the post-op. -/
theorem processUnifiedOp_reshape_eq (ops : List Op) (vars : String → Binding)
    (inputs outputs : List String) (udOps : List Op) (unified : List Nat)
    (st : UniState) (uidx : Nat)
    (htag : (opAt ops uidx).tag = OpTag.FUNCTION)
    (hfn : (opAt ops uidx).f.fn = "reshape" ∨ (opAt ops uidx).f.fn = "ident")
    (hne : (opAt ops uidx).inputs ≠ [])
    (htens : (vars ((opAt ops uidx).inputs.getD 0 "")).tag = BindingTag.TENSOR)
    (hbyte : (vars ((opAt ops uidx).inputs.getD 0 "")).shape.byte_size =
      (vars (opAt ops uidx).output).shape.byte_size)
    (helem : (vars ((opAt ops uidx).inputs.getD 0 "")).shape.elem_size =
      (vars (opAt ops uidx).output).shape.elem_size) :
    processUnifiedOp ops vars inputs outputs udOps unified st uidx =
      .ok (if (opAt ops uidx).output ∉ outputs ∨
            (st.vr.Lookup ((opAt ops uidx).inputs.getD 0 "") ∉ outputs ∧
             st.vr.Lookup ((opAt ops uidx).inputs.getD 0 "") ∉ inputs) then
            { st with vr := st.vr.Insert (opAt ops uidx).output
                        (st.vr.Lookup ((opAt ops uidx).inputs.getD 0 "")),
                      localRw := emplaceKV (opAt ops uidx).output
                        (st.vr.Lookup ((opAt ops uidx).inputs.getD 0 "")) st.localRw }
          else emitOp udOps vars unified st (opAt ops uidx)) := by
  simp only [processUnifiedOp]
  rw [if_neg (not_not_intro htag), if_pos hfn,
    if_neg (Nat.not_lt.mpr (List.length_pos.mpr hne)),
    if_neg (not_not_intro htens), if_neg (not_not_intro hbyte),
    if_neg (not_not_intro helem)]
  split <;> rfl

/-- C6: during `DoUnification`, a fused reshape or ident op that passes the
tensor, byte_size and elem_size checks is elided — its output is mapped to
`input = var_rewrites.Lookup(op.inputs[0])` in both the global and local
rewrite maps and no post-op is emitted — iff the op's output is not a
program output, or the looked-up input is neither a program output nor a
program input; otherwise the op is retained as a post-op. -/
theorem reshape_elision_iff (ops : List Op) (vars : String → Binding)
    (inputs outputs : List String) (udOps : List Op) (unified : List Nat)
    (st : UniState) (uidx : Nat)
    (htag : (opAt ops uidx).tag = OpTag.FUNCTION)
    (hfn : (opAt ops uidx).f.fn = "reshape" ∨ (opAt ops uidx).f.fn = "ident")
    (hne : (opAt ops uidx).inputs ≠ [])
    (htens : (vars ((opAt ops uidx).inputs.getD 0 "")).tag = BindingTag.TENSOR)
    (hbyte : (vars ((opAt ops uidx).inputs.getD 0 "")).shape.byte_size =
      (vars (opAt ops uidx).output).shape.byte_size)
    (helem : (vars ((opAt ops uidx).inputs.getD 0 "")).shape.elem_size =
      (vars (opAt ops uidx).output).shape.elem_size) :
    processUnifiedOp ops vars inputs outputs udOps unified st uidx =
      .ok (if (opAt ops uidx).output ∉ outputs ∨
            (st.vr.Lookup ((opAt ops uidx).inputs.getD 0 "") ∉ outputs ∧
             st.vr.Lookup ((opAt ops uidx).inputs.getD 0 "") ∉ inputs) then
            { st with vr := st.vr.Insert (opAt ops uidx).output
                        (st.vr.Lookup ((opAt ops uidx).inputs.getD 0 "")),
                      localRw := emplaceKV (opAt ops uidx).output
                        (st.vr.Lookup ((opAt ops uidx).inputs.getD 0 "")) st.localRw }
          else emitOp udOps vars unified st (opAt ops uidx)) :=
  processUnifiedOp_reshape_eq ops vars inputs outputs udOps unified st uidx
    htag hfn hne htens hbyte helem

/-- Witness for `reshape_elision_iff` on `opsC6` (the elide branch fires:
`y` is mapped to `x` in both maps and no post-op is appended). -/
theorem reshape_elision_iff_witness :
    processUnifiedOp opsC6 varsMock [] [] opsC6 [0] {} 0 =
      .ok { vr := ⟨[("y", "x")]⟩, localRw := [("y", "x")] } := by
  rw [reshape_elision_iff opsC6 varsMock [] [] opsC6 [0] {} 0 rfl (Or.inl rfl)
    (by decide) rfl rfl rfl]
  rfl

theorem lookupAux_not_mem (n : Nat) (m : List (String × String)) (k : String)
    (h : ∀ p ∈ m, p.1 ≠ k) : lookupAux (n + 1) m k = k := by
  simp only [lookupAux]
  have hnone : assocV m k = none := by
    unfold assocV
    rw [List.find?_eq_none.mpr (fun p hp => by simpa using h p hp)]
    rfl
  rw [hnone]

theorem vr_lookup_resolved (n : Nat) (m : List (String × String)) (k v : String)
    (hfind : assocV m k = some v) (hterm : ∀ p ∈ m, p.1 ≠ v) :
    lookupAux (n + 2) m k = v := by
  simp only [lookupAux]
  rw [hfind]
  exact lookupAux_not_mem n m v hterm

/-- C7: reshape elision commutativity.  For a fused chain
`b = reshape(a)`, `c = reshape(b)` where `a` is neither a program output nor
a program input, `b` is not a program output, and none of `a`, `b`, `c` is
already bound in `var_rewrites`, processing the two ops elides both and the
transitive lookup of `c` yields `a`. -/
theorem reshape_chain_lookup (ops : List Op) (vars : String → Binding)
    (inputs outputs : List String) (udOps : List Op) (unified : List Nat)
    (st : UniState) (i1 i2 : Nat) (a b c : String)
    (htag1 : (opAt ops i1).tag = OpTag.FUNCTION)
    (hfn1 : (opAt ops i1).f.fn = "reshape")
    (hout1 : (opAt ops i1).output = b)
    (hin1 : (opAt ops i1).inputs.getD 0 "" = a)
    (hne1 : (opAt ops i1).inputs ≠ [])
    (htag2 : (opAt ops i2).tag = OpTag.FUNCTION)
    (hfn2 : (opAt ops i2).f.fn = "reshape")
    (hout2 : (opAt ops i2).output = c)
    (hin2 : (opAt ops i2).inputs.getD 0 "" = b)
    (hne2 : (opAt ops i2).inputs ≠ [])
    (hta : (vars a).tag = BindingTag.TENSOR)
    (htb : (vars b).tag = BindingTag.TENSOR)
    (hba : (vars a).shape.byte_size = (vars b).shape.byte_size)
    (hea : (vars a).shape.elem_size = (vars b).shape.elem_size)
    (hbb : (vars b).shape.byte_size = (vars c).shape.byte_size)
    (heb : (vars b).shape.elem_size = (vars c).shape.elem_size)
    (haout : a ∉ outputs) (hain : a ∉ inputs) (hbout : b ∉ outputs)
    (hka : ∀ p ∈ st.vr.map, p.1 ≠ a)
    (hkb : ∀ p ∈ st.vr.map, p.1 ≠ b)
    (hkc : ∀ p ∈ st.vr.map, p.1 ≠ c)
    (hab : a ≠ b) (hac : a ≠ c) (hbc : b ≠ c) :
    ∃ st1 st2 : UniState,
      processUnifiedOp ops vars inputs outputs udOps unified st i1 = .ok st1 ∧
      processUnifiedOp ops vars inputs outputs udOps unified st1 i2 = .ok st2 ∧
      st2.vr.Lookup c = a := by
  have hlka : st.vr.Lookup a = a := lookupAux_not_mem st.vr.map.length st.vr.map a hka
  have h1 := processUnifiedOp_reshape_eq ops vars inputs outputs udOps unified st i1
    htag1 (Or.inl hfn1) hne1 (by rw [hin1]; exact hta)
    (by rw [hin1, hout1]; exact hba) (by rw [hin1, hout1]; exact hea)
  rw [hin1, hout1, hlka] at h1
  rw [if_pos (Or.inl hbout)] at h1
  set st1 : UniState :=
    { st with vr := st.vr.Insert b a, localRw := emplaceKV b a st.localRw } with hst1
  have hst1map : st1.vr.map = (b, a) :: st.vr.map := rfl
  have hlkb : st1.vr.Lookup b = a := by
    have hfind : assocV st1.vr.map b = some a := by
      rw [hst1map]
      simp [assocV]
    have hterm : ∀ p ∈ st1.vr.map, p.1 ≠ a := by
      rw [hst1map]
      intro p hp
      rcases List.mem_cons.mp hp with rfl | hp
      · exact fun e => hab e.symm
      · exact fun e => hka p hp (e.trans rfl) |>.elim
    have : st1.vr.map.length + 1 = st.vr.map.length + 2 := by
      rw [hst1map]; rfl
    unfold VarRewrites.Lookup
    rw [this]
    exact vr_lookup_resolved st.vr.map.length st1.vr.map b a hfind hterm
  have h2 := processUnifiedOp_reshape_eq ops vars inputs outputs udOps unified st1 i2
    htag2 (Or.inl hfn2) hne2 (by rw [hin2]; exact htb)
    (by rw [hin2, hout2]; exact hbb) (by rw [hin2, hout2]; exact heb)
  rw [hin2, hout2, hlkb] at h2
  rw [if_pos (Or.inr ⟨haout, hain⟩)] at h2
  set st2 : UniState :=
    { st1 with vr := st1.vr.Insert c a, localRw := emplaceKV c a st1.localRw } with hst2
  have hst2map : st2.vr.map = (c, a) :: (b, a) :: st.vr.map := rfl
  refine ⟨st1, st2, h1, h2, ?_⟩
  have hfind2 : assocV st2.vr.map c = some a := by
    rw [hst2map]
    simp [assocV]
  have hterm2 : ∀ p ∈ st2.vr.map, p.1 ≠ a := by
    rw [hst2map]
    intro p hp
    rcases List.mem_cons.mp hp with rfl | hp
    · exact fun e => hac e.symm
    · rcases List.mem_cons.mp hp with rfl | hp
      · exact fun e => hab e.symm
      · exact hka p hp
  have hlen2 : st2.vr.map.length + 1 = (st.vr.map.length + 1) + 2 := by
    rw [hst2map]; rfl
  unfold VarRewrites.Lookup
  rw [hlen2]
  exact vr_lookup_resolved (st.vr.map.length + 1) st2.vr.map c a hfind2 hterm2

/-- Witness for `reshape_chain_lookup` on `opsC7`. -/
theorem reshape_chain_lookup_witness :
    ∃ st1 st2 : UniState,
      processUnifiedOp opsC7 varsMock [] [] opsC7 [0, 1] {} 0 = .ok st1 ∧
      processUnifiedOp opsC7 varsMock [] [] opsC7 [0, 1] st1 1 = .ok st2 ∧
      st2.vr.Lookup "c" = "a" :=
  reshape_chain_lookup opsC7 varsMock [] [] opsC7 [0, 1] {} 0 1 "a" "b" "c"
    rfl rfl rfl rfl (by decide) rfl rfl rfl rfl (by decide)
    rfl rfl rfl rfl rfl rfl
    (by decide) (by decide) (by decide)
    (by intro p hp; exact absurd hp (List.not_mem_nil p))
    (by intro p hp; exact absurd hp (List.not_mem_nil p))
    (by intro p hp; exact absurd hp (List.not_mem_nil p))
    (by decide) (by decide) (by decide)

/-! ## C4: prelude kernels for contractions that need zeroing -/

/-- C4: when `NeedsZero` holds for the lowered flat form of a CONTRACTION
op, the driver emits exactly one prelude kernel before the contraction
kernel — a copy kernel named `copy_<kname>` when `use_default` is nonempty,
otherwise a zero kernel named `zero_<kname>` — appends the op's output to
the flat contraction's `kernel_outputs`, and does not run `DoUnification`
(the `computed` set, `var_rewrites` and the flat's `post_ops` are left
untouched, as the right-hand side exhibits). -/
theorem contraction_needsZero_prelude (cl : Collab) (settings : HardwareSettings)
    (vars : String → Binding) (inputs outputs : List String) (udOps : List Op)
    (kid : String) (tile_trials : Nat) (st : DriverState) (i : Nat)
    (htag : (opAt st.ops i).tag = OpTag.CONTRACTION)
    (hnz : NeedsZero
      { (cl.lowerC (opAt st.ops i).c
          ((opAt st.ops i).c.specs.map fun sp => (vars sp.id).shape)).1
        with output := (opAt st.ops i).output }
      (((opAt st.ops i).c.specs.map fun sp => (vars sp.id).shape).getD 0 default) = true) :
    compileStep cl settings vars inputs outputs udOps kid tile_trials st i =
      (ContractionWrap cl settings vars tile_trials st.varRewrites []
        (some (opAt st.ops i).c)
        { (cl.lowerC (opAt st.ops i).c
            ((opAt st.ops i).c.specs.map fun sp => (vars sp.id).shape)).1
          with output := (opAt st.ops i).output,
               kernel_outputs :=
                 (cl.lowerC (opAt st.ops i).c
                   ((opAt st.ops i).c.specs.map fun sp => (vars sp.id).shape)).1.kernel_outputs
                 ++ [(opAt st.ops i).output] }
        (kid ++ "_" ++ toString st.knum)).map
        (fun ks =>
          { st with knum := st.knum + 1,
                    kernels := st.kernels ++
                      (if (opAt st.ops i).c.use_default ≠ "" then
                        cl.genCopy
                          (((opAt st.ops i).c.specs.map fun sp => (vars sp.id).shape).getD 0 default)
                          (opAt st.ops i).output (opAt st.ops i).c.use_default
                          ("copy_" ++ (kid ++ "_" ++ toString st.knum))
                      else
                        cl.genZero
                          (((opAt st.ops i).c.specs.map fun sp => (vars sp.id).shape).getD 0 default)
                          (opAt st.ops i).output
                          ("zero_" ++ (kid ++ "_" ++ toString st.knum))) :: ks }) := by
  simp only [compileStep]
  rw [if_pos htag]
  simp only [contractionStep]
  rw [hnz]
  rfl

/-- Witness for `contraction_needsZero_prelude` on the one-contraction
program `[opC9]` with the concrete collaborators. -/
theorem contraction_needsZero_prelude_witness :
    compileStep mockCollab mockSettings varsMock [] [] [opC9] "kernel_x" 1
      { ops := [opC9] } 0 =
      (ContractionWrap mockCollab mockSettings varsMock 1 {} [] (some opC9.c)
        { (mockCollab.lowerC opC9.c [mockShape, mockShape]).1 with
          output := "O", kernel_outputs := ["O"] }
        "kernel_x_0").map
        (fun ks => { ops := [opC9], knum := 1,
                     kernels := mockCollab.genZero mockShape "O" "zero_kernel_x_0" :: ks }) :=
  contraction_needsZero_prelude mockCollab mockSettings varsMock [] [] [opC9]
    "kernel_x" 1 { ops := [opC9] } 0 rfl rfl

/-! ## C8, C10: PRNG handling in the driver -/

theorem opAt_mem : ∀ (ops : List Op) (j : Nat), j < ops.length → opAt ops j ∈ ops := by
  intro ops
  induction ops with
  | nil => intro j h; simp at h
  | cons o t ih =>
    intro j h
    cases j with
    | zero => exact List.mem_cons_self o t
    | succ j' => exact List.mem_cons_of_mem _ (ih j' (Nat.lt_of_succ_lt_succ h))

theorem prngScanStep_state (ops : List Op) (tup : String) (acc : PrngScanRes) (j : Nat)
    (hs : (opAt ops j).f.fn = "prng_state" ∧ (opAt ops j).inputs = [tup]) :
    prngScanStep ops tup acc j =
      { acc with sout := (opAt ops j).output, sout_pos := j, adds := acc.adds ++ [j] } := by
  unfold prngScanStep
  rw [if_pos hs]

theorem prngScanStep_value (ops : List Op) (tup : String) (acc : PrngScanRes) (j : Nat)
    (hs : ¬ ((opAt ops j).f.fn = "prng_state" ∧ (opAt ops j).inputs = [tup]))
    (hv : (opAt ops j).f.fn = "prng_value" ∧ (opAt ops j).inputs = [tup]) :
    prngScanStep ops tup acc j =
      { acc with vout := (opAt ops j).output, adds := acc.adds ++ [j] } := by
  unfold prngScanStep
  rw [if_neg hs, if_pos hv]

theorem prngScanStep_skip (ops : List Op) (tup : String) (acc : PrngScanRes) (j : Nat)
    (hs : ¬ ((opAt ops j).f.fn = "prng_state" ∧ (opAt ops j).inputs = [tup]))
    (hv : ¬ ((opAt ops j).f.fn = "prng_value" ∧ (opAt ops j).inputs = [tup])) :
    prngScanStep ops tup acc j = acc := by
  unfold prngScanStep
  rw [if_neg hs, if_neg hv]

theorem prngScan_fold_state (ops : List Op) (tup : String) :
    ∀ (l : List Nat) (acc : PrngScanRes),
      (∀ j ∈ l, stateConsumerAt ops tup j → (opAt ops j).output ≠ "") →
      ((l.foldl (prngScanStep ops tup) acc).sout = "" ↔
        (acc.sout = "" ∧ ∀ j ∈ l, ¬ stateConsumerAt ops tup j)) := by
  intro l
  induction l with
  | nil => intro acc _; simp
  | cons j rest ih =>
    intro acc hout
    rw [List.foldl_cons]
    by_cases hs : (opAt ops j).f.fn = "prng_state" ∧ (opAt ops j).inputs = [tup]
    · rw [prngScanStep_state ops tup acc j hs,
        ih _ (fun j' hj' => hout j' (List.mem_cons_of_mem _ hj'))]
      constructor
      · rintro ⟨hso, _⟩
        exact absurd hso (hout j (List.mem_cons_self j rest) hs)
      · rintro ⟨_, hall⟩
        exact absurd hs (hall j (List.mem_cons_self j rest))
    · by_cases hv : (opAt ops j).f.fn = "prng_value" ∧ (opAt ops j).inputs = [tup]
      · rw [prngScanStep_value ops tup acc j hs hv,
          ih _ (fun j' hj' => hout j' (List.mem_cons_of_mem _ hj'))]
        constructor
        · rintro ⟨h1, h2⟩
          refine ⟨h1, ?_⟩
          intro j' hj'
          rcases List.mem_cons.mp hj' with rfl | hj'
          · exact hs
          · exact h2 j' hj'
        · rintro ⟨h1, h2⟩
          exact ⟨h1, fun j' hj' => h2 j' (List.mem_cons_of_mem _ hj')⟩
      · rw [prngScanStep_skip ops tup acc j hs hv,
          ih _ (fun j' hj' => hout j' (List.mem_cons_of_mem _ hj'))]
        constructor
        · rintro ⟨h1, h2⟩
          refine ⟨h1, ?_⟩
          intro j' hj'
          rcases List.mem_cons.mp hj' with rfl | hj'
          · exact hs
          · exact h2 j' hj'
        · rintro ⟨h1, h2⟩
          exact ⟨h1, fun j' hj' => h2 j' (List.mem_cons_of_mem _ hj')⟩

theorem prngScan_fold_value (ops : List Op) (tup : String) :
    ∀ (l : List Nat) (acc : PrngScanRes),
      (∀ j ∈ l, valueConsumerAt ops tup j → (opAt ops j).output ≠ "") →
      ((l.foldl (prngScanStep ops tup) acc).vout = "" ↔
        (acc.vout = "" ∧ ∀ j ∈ l, ¬ valueConsumerAt ops tup j)) := by
  intro l
  induction l with
  | nil => intro acc _; simp
  | cons j rest ih =>
    intro acc hout
    rw [List.foldl_cons]
    by_cases hs : (opAt ops j).f.fn = "prng_state" ∧ (opAt ops j).inputs = [tup]
    · rw [prngScanStep_state ops tup acc j hs,
        ih _ (fun j' hj' => hout j' (List.mem_cons_of_mem _ hj'))]
      have hnv : ¬ valueConsumerAt ops tup j := by
        rintro ⟨hfn, _⟩
        rw [hs.1] at hfn
        exact absurd hfn (by decide)
      constructor
      · rintro ⟨h1, h2⟩
        refine ⟨h1, ?_⟩
        intro j' hj'
        rcases List.mem_cons.mp hj' with rfl | hj'
        · exact hnv
        · exact h2 j' hj'
      · rintro ⟨h1, h2⟩
        exact ⟨h1, fun j' hj' => h2 j' (List.mem_cons_of_mem _ hj')⟩
    · by_cases hv : (opAt ops j).f.fn = "prng_value" ∧ (opAt ops j).inputs = [tup]
      · rw [prngScanStep_value ops tup acc j hs hv,
          ih _ (fun j' hj' => hout j' (List.mem_cons_of_mem _ hj'))]
        constructor
        · rintro ⟨hvo, _⟩
          exact absurd hvo (hout j (List.mem_cons_self j rest) hv)
        · rintro ⟨_, hall⟩
          exact absurd hv (hall j (List.mem_cons_self j rest))
      · rw [prngScanStep_skip ops tup acc j hs hv,
          ih _ (fun j' hj' => hout j' (List.mem_cons_of_mem _ hj'))]
        constructor
        · rintro ⟨h1, h2⟩
          refine ⟨h1, ?_⟩
          intro j' hj'
          rcases List.mem_cons.mp hj' with rfl | hj'
          · exact hv
          · exact h2 j' hj'
        · rintro ⟨h1, h2⟩
          exact ⟨h1, fun j' hj' => h2 j' (List.mem_cons_of_mem _ hj')⟩

theorem prngScan_fold_nomatch (ops : List Op) (tup : String) :
    ∀ (l : List Nat) (acc : PrngScanRes),
      (∀ j ∈ l, ¬ stateConsumerAt ops tup j ∧ ¬ valueConsumerAt ops tup j) →
      l.foldl (prngScanStep ops tup) acc = acc := by
  intro l
  induction l with
  | nil => intro acc _; rfl
  | cons j rest ih =>
    intro acc hno
    rw [List.foldl_cons,
      prngScanStep_skip ops tup acc j (hno j (List.mem_cons_self j rest)).1
        (hno j (List.mem_cons_self j rest)).2]
    exact ih acc (fun j' hj' => hno j' (List.mem_cons_of_mem _ hj'))

/-- C8: for a special FUNCTION op not yet marked computed, the driver step
errors iff the op is a `prng_state` or `prng_value` (reached without a
preceding `prng_step` group), or a `prng_step` whose value output has a
consumer while no `prng_state` op consumes its tuple output.  In the error
cases no kernel is emitted (the `Except` carries no partial state), and the
error aborts the whole compilation since the driver folds in `Except`. -/
theorem prng_misuse_error_iff (cl : Collab) (settings : HardwareSettings)
    (vars : String → Binding) (inputs outputs : List String) (udOps : List Op)
    (kid : String) (tile_trials : Nat) (st : DriverState) (i : Nat)
    (hlen : i < st.ops.length)
    (htag : (opAt st.ops i).tag = OpTag.FUNCTION)
    (hsp : isSpecial (opAt st.ops i).f = true)
    (hnc : i ∉ st.computed)
    (houts : ∀ o ∈ st.ops, o.output ≠ "") :
    (∃ e, compileStep cl settings vars inputs outputs udOps kid tile_trials st i =
      Except.error e) ↔
      ((opAt st.ops i).f.fn = "prng_state" ∨ (opAt st.ops i).f.fn = "prng_value" ∨
       ((opAt st.ops i).f.fn = "prng_step" ∧
        (∃ j, i < j ∧ j < st.ops.length ∧
          valueConsumerAt st.ops (opAt st.ops i).output j) ∧
        ¬ ∃ j, i < j ∧ j < st.ops.length ∧
          stateConsumerAt st.ops (opAt st.ops i).output j)) := by
  simp only [compileStep]
  rw [if_neg (by rw [htag]; exact fun hcon => OpTag.noConfusion hcon),
    if_neg (by rw [htag]; exact fun hcon => OpTag.noConfusion hcon),
    if_neg hnc, if_pos hsp]
  simp only [specialStep]
  have hmem : ∀ j, j ∈ List.range' (i + 1) (st.ops.length - (i + 1)) ↔
      (i < j ∧ j < st.ops.length) := by
    intro j
    rw [List.mem_range'_1]
    omega
  by_cases h1 : (opAt st.ops i).f.fn = "prng_state" ∨ (opAt st.ops i).f.fn = "prng_value"
  · rw [if_pos h1]
    constructor
    · intro _
      rcases h1 with h1 | h1
      · exact Or.inl h1
      · exact Or.inr (Or.inl h1)
    · intro _
      exact ⟨"prng functions must come in threes", rfl⟩
  · rw [if_neg h1]
    push_neg at h1
    obtain ⟨h1s, h1v⟩ := h1
    by_cases h2 : (opAt st.ops i).f.fn = "prng_step"
    · rw [if_pos h2]
      have hsout : (prngScan st.ops i (opAt st.ops i).output).sout = "" ↔
          ¬ ∃ j, i < j ∧ j < st.ops.length ∧
            stateConsumerAt st.ops (opAt st.ops i).output j := by
        unfold prngScan
        rw [prngScan_fold_state st.ops _ _ {}
          (fun j hj _ => houts _ (opAt_mem st.ops j ((hmem j).mp hj).2))]
        constructor
        · rintro ⟨_, hall⟩ ⟨j, hj1, hj2, hcons⟩
          exact hall j ((hmem j).mpr ⟨hj1, hj2⟩) hcons
        · intro hnex
          refine ⟨rfl, ?_⟩
          intro j hj hcons
          exact hnex ⟨j, ((hmem j).mp hj).1, ((hmem j).mp hj).2, hcons⟩
      have hvout : (prngScan st.ops i (opAt st.ops i).output).vout = "" ↔
          ¬ ∃ j, i < j ∧ j < st.ops.length ∧
            valueConsumerAt st.ops (opAt st.ops i).output j := by
        unfold prngScan
        rw [prngScan_fold_value st.ops _ _ {}
          (fun j hj _ => houts _ (opAt_mem st.ops j ((hmem j).mp hj).2))]
        constructor
        · rintro ⟨_, hall⟩ ⟨j, hj1, hj2, hcons⟩
          exact hall j ((hmem j).mpr ⟨hj1, hj2⟩) hcons
        · intro hnex
          refine ⟨rfl, ?_⟩
          intro j hj hcons
          exact hnex ⟨j, ((hmem j).mp hj).1, ((hmem j).mp hj).2, hcons⟩
      by_cases hv : (prngScan st.ops i (opAt st.ops i).output).vout = ""
      · by_cases hs : (prngScan st.ops i (opAt st.ops i).output).sout = ""
        · rw [if_pos ⟨hv, hs⟩]
          constructor
          · rintro ⟨e, he⟩
            exact Except.noConfusion he
          · rintro (h | h | ⟨_, hex, _⟩)
            · exact absurd h h1s
            · exact absurd h h1v
            · exact absurd hex (hvout.mp hv)
        · rw [if_neg (fun hand => hs hand.2), if_pos hv]
          constructor
          · rintro ⟨e, he⟩
            exact Except.noConfusion he
          · rintro (h | h | ⟨_, hex, _⟩)
            · exact absurd h h1s
            · exact absurd h h1v
            · exact absurd hex (hvout.mp hv)
      · rw [if_neg (fun hand => hv hand.1), if_neg hv]
        by_cases hs : (prngScan st.ops i (opAt st.ops i).output).sout = ""
        · rw [if_pos hs]
          constructor
          · intro _
            refine Or.inr (Or.inr ⟨h2, ?_, hsout.mp hs⟩)
            by_contra hnex
            exact hv (hvout.mpr hnex)
          · intro _
            exact ⟨"prng_step function missing its companions", rfl⟩
        · rw [if_neg hs]
          constructor
          · rintro ⟨e, he⟩
            exact Except.noConfusion he
          · rintro (h | h | ⟨_, _, hnex⟩)
            · exact absurd h h1s
            · exact absurd h h1v
            · exact absurd (hsout.mpr hnex) hs
    · rw [if_neg h2]
      constructor
      · rintro ⟨e, he⟩
        exact Except.noConfusion he
      · rintro (h | h | ⟨h, _, _⟩)
        · exact absurd h h1s
        · exact absurd h h1v
        · exact absurd h h2

/-- Witness for `prng_misuse_error_iff`: a `prng_state` op reached without a
preceding `prng_step` makes the driver step error. -/
theorem prng_misuse_error_iff_witness :
    ∃ e, compileStep mockCollab mockSettings varsMock [] [] opsC8 "kernel_x" 1
      { ops := opsC8 } 0 = Except.error e :=
  (prng_misuse_error_iff mockCollab mockSettings varsMock [] [] opsC8 "kernel_x" 1
    { ops := opsC8 } 0 (by decide) rfl rfl (by decide) (by decide)).mpr (Or.inl rfl)

/-- C10: a `prng_step` op whose tuple output is consumed by neither a
`prng_state` nor a `prng_value` op is silently skipped by the driver — the
step returns the state entirely unchanged: no kernel is emitted, nothing is
marked computed, the program is not rewritten, the name counter does not
advance, and no error is raised. -/
theorem prng_lone_step_skipped (cl : Collab) (settings : HardwareSettings)
    (vars : String → Binding) (inputs outputs : List String) (udOps : List Op)
    (kid : String) (tile_trials : Nat) (st : DriverState) (i : Nat)
    (htag : (opAt st.ops i).tag = OpTag.FUNCTION)
    (hfn : (opAt st.ops i).f.fn = "prng_step")
    (hnc : i ∉ st.computed)
    (hnone : ∀ j, i < j → j < st.ops.length →
      ¬ stateConsumerAt st.ops (opAt st.ops i).output j ∧
      ¬ valueConsumerAt st.ops (opAt st.ops i).output j) :
    compileStep cl settings vars inputs outputs udOps kid tile_trials st i =
      .ok st := by
  have hscan : prngScan st.ops i (opAt st.ops i).output = {} := by
    unfold prngScan
    apply prngScan_fold_nomatch
    intro j hj
    have hb := List.mem_range'_1.mp hj
    exact hnone j (by omega) (by omega)
  simp only [compileStep]
  rw [if_neg (by rw [htag]; exact fun hcon => OpTag.noConfusion hcon),
    if_neg (by rw [htag]; exact fun hcon => OpTag.noConfusion hcon),
    if_neg hnc, if_pos (by unfold isSpecial; rw [hfn]; rfl)]
  simp only [specialStep]
  rw [if_neg (by rw [hfn]; decide), if_pos hfn, hscan]
  rfl

/-- Witness for `prng_lone_step_skipped` on the one-op program `opsC10`. -/
theorem prng_lone_step_skipped_witness :
    compileStep mockCollab mockSettings varsMock [] [] opsC10 "kernel_x" 1
      { ops := opsC10 } 0 = .ok { ops := opsC10 } :=
  prng_lone_step_skipped mockCollab mockSettings varsMock [] [] opsC10 "kernel_x" 1
    { ops := opsC10 } 0 rfl rfl (by decide)
    (by
      intro j h1 h2
      have h2' : j < 1 := h2
      omega)

/-! ## C9: kernel naming -/

theorem except_map_ok {ε α β : Type} {e : Except ε α} {f : α → β} {y : β}
    (h : e.map f = .ok y) : ∃ x, e = .ok x ∧ y = f x := by
  cases e with
  | error e' => simp [Except.map] at h
  | ok x =>
    refine ⟨x, rfl, ?_⟩
    simp only [Except.map] at h
    injection h with h
    exact h.symm

theorem except_bind_ok {ε α β : Type} {e : Except ε α} {f : α → Except ε β} {y : β}
    (h : (e >>= f) = .ok y) : ∃ x, e = .ok x ∧ f x = .ok y := by
  cases e with
  | error e' => simp [Bind.bind, Except.bind] at h
  | ok x =>
    refine ⟨x, rfl, ?_⟩
    simpa [Bind.bind, Except.bind] using h

theorem wrapBuild_kname (cl : Collab) (settings : HardwareSettings)
    (vars : String → Binding) (tile_trials : Nat) (vr : VarRewrites)
    (wsr : List String) (inputs : List String) (flat0 : FlatContraction)
    (kname : String)
    (hGC : ∀ k s f t ins, (cl.genContract k s f t ins).kname = k)
    (hTO : ∀ s f b v, cl.tileOptimize s f b v ≠ [])
    (htt : 1 ≤ tile_trials) :
    (wrapBuild cl settings vars tile_trials vr wsr inputs flat0 kname).kname = kname := by
  simp only [wrapBuild]
  obtain ⟨m, rfl⟩ : ∃ m, tile_trials = m + 1 := ⟨tile_trials - 1, by omega⟩
  have hrev : (cl.tileOptimize settings
      (vectorizeLoop cl.vectorize settings.vec_size
        (simplifyLoop (flat0.names.length + 1) flat0) settings.vec_size)
      (decide (m + 1 = 1)) vars).reverse ≠ [] := by
    rw [ne_eq, List.reverse_eq_nil_iff]
    exact hTO _ _ _ _
  obtain ⟨x, xs, hx⟩ := List.exists_cons_of_ne_nil hrev
  rw [hx, List.take_succ_cons, List.map_cons]
  exact hGC _ _ _ _ _

theorem contractionWrap_names (cl : Collab) (settings : HardwareSettings)
    (vars : String → Binding) (tile_trials : Nat) (vr : VarRewrites)
    (wsr : List String) (copt : Option Contraction) (flat0 : FlatContraction)
    (kname : String) (ks : List KernelInfo)
    (hGC : ∀ k s f t ins, (cl.genContract k s f t ins).kname = k)
    (hTO : ∀ s f b v, cl.tileOptimize s f b v ≠ [])
    (htt : 1 ≤ tile_trials)
    (h : ContractionWrap cl settings vars tile_trials vr wsr copt flat0 kname = .ok ks) :
    ∀ ki ∈ ks, ki.kname = kname := by
  intro ki hki
  unfold ContractionWrap at h
  split at h
  · injection h with h
    subst h
    exact absurd hki (List.not_mem_nil ki)
  · split at h
    · split at h
      · injection h with h
        subst h
        rcases List.mem_singleton.mp hki with rfl
        exact wrapBuild_kname cl settings vars tile_trials vr wsr _ flat0 kname hGC hTO htt
      · exact Except.noConfusion h
    · injection h with h
      subst h
      rcases List.mem_singleton.mp hki with rfl
      exact wrapBuild_kname cl settings vars tile_trials vr wsr [] flat0 kname hGC hTO htt

theorem compileStep_names (cl : Collab) (settings : HardwareSettings)
    (vars : String → Binding) (inputs outputs : List String) (udOps : List Op)
    (kid : String) (tile_trials : Nat)
    (hGC : ∀ k s f t ins, (cl.genContract k s f t ins).kname = k)
    (hGZ : ∀ sh n k, (cl.genZero sh n k).kname = k)
    (hGCp : ∀ sh d s k, (cl.genCopy sh d s k).kname = k)
    (hGS : ∀ op k s, ∀ ki ∈ cl.genSpecial op k s, ki.kname = k)
    (hTO : ∀ s f b v, cl.tileOptimize s f b v ≠ [])
    (htt : 1 ≤ tile_trials) :
    ∀ (st : DriverState) (i : Nat) (st' : DriverState),
      compileStep cl settings vars inputs outputs udOps kid tile_trials st i = .ok st' →
      (∀ ki ∈ st.kernels, NameOk kid ki) →
      ∀ ki ∈ st'.kernels, NameOk kid ki := by
  intro st i st' h hinv
  simp only [compileStep] at h
  by_cases htag : (opAt st.ops i).tag = OpTag.CONTRACTION
  · rw [if_pos htag] at h
    simp only [contractionStep] at h
    split at h
    · -- NeedsZero branch
      obtain ⟨ks, hW, rfl⟩ := except_map_ok h
      intro ki hki
      rcases List.mem_append.mp hki with hold | hnew
      · exact hinv ki hold
      · rcases List.mem_cons.mp hnew with rfl | hks
        · by_cases hud : (opAt st.ops i).c.use_default ≠ ""
          · rw [if_pos hud]
            exact ⟨st.knum, Or.inr (Or.inr (hGCp _ _ _ _))⟩
          · rw [if_neg hud]
            exact ⟨st.knum, Or.inr (Or.inl (hGZ _ _ _))⟩
        · exact ⟨st.knum, Or.inl (contractionWrap_names cl settings vars tile_trials
            _ _ _ _ _ _ hGC hTO htt hW ki hks)⟩
    · -- unification branch
      split at h
      · exact Except.noConfusion h
      · obtain ⟨ks, hW, rfl⟩ := except_map_ok h
        intro ki hki
        rcases List.mem_append.mp hki with hold | hks
        · exact hinv ki hold
        · exact ⟨st.knum, Or.inl (contractionWrap_names cl settings vars tile_trials
            _ _ _ _ _ _ hGC hTO htt hW ki hks)⟩
  · rw [if_neg htag] at h
    by_cases hcst : (opAt st.ops i).tag = OpTag.CONSTANT
    · rw [if_pos hcst] at h
      injection h with h
      subst h
      exact hinv
    · rw [if_neg hcst] at h
      by_cases hcomp : i ∈ st.computed
      · rw [if_pos hcomp] at h
        injection h with h
        subst h
        exact hinv
      · rw [if_neg hcomp] at h
        by_cases hsp : isSpecial (opAt st.ops i).f = true
        · rw [if_pos hsp] at h
          simp only [specialStep] at h
          split at h
          · exact Except.noConfusion h
          · split at h
            · -- prng_step
              split at h
              · -- whole-group skip
                injection h with h
                subst h
                exact hinv
              · split at h
                · -- state rewritten to ident
                  injection h with h
                  subst h
                  exact hinv
                · split at h
                  · exact Except.noConfusion h
                  · -- triplet dispatch
                    injection h with h
                    subst h
                    intro ki hki
                    rcases List.mem_append.mp hki with hold | hnew
                    · exact hinv ki hold
                    · exact ⟨st.knum, Or.inl (hGS _ _ _ ki hnew)⟩
            · -- other special functions
              injection h with h
              subst h
              intro ki hki
              rcases List.mem_append.mp hki with hold | hnew
              · exact hinv ki hold
              · exact ⟨st.knum, Or.inl (hGS _ _ _ ki hnew)⟩
        · rw [if_neg hsp] at h
          simp only [elementwiseStep] at h
          split at h
          · exact Except.noConfusion h
          · obtain ⟨ks, hW, rfl⟩ := except_map_ok h
            intro ki hki
            rcases List.mem_append.mp hki with hold | hks
            · exact hinv ki hold
            · exact ⟨st.knum, Or.inl (contractionWrap_names cl settings vars tile_trials
                _ _ _ _ _ _ hGC hTO htt hW ki hks)⟩

theorem foldlM_compileStep_names (cl : Collab) (settings : HardwareSettings)
    (vars : String → Binding) (inputs outputs : List String) (udOps : List Op)
    (kid : String) (tile_trials : Nat)
    (hGC : ∀ k s f t ins, (cl.genContract k s f t ins).kname = k)
    (hGZ : ∀ sh n k, (cl.genZero sh n k).kname = k)
    (hGCp : ∀ sh d s k, (cl.genCopy sh d s k).kname = k)
    (hGS : ∀ op k s, ∀ ki ∈ cl.genSpecial op k s, ki.kname = k)
    (hTO : ∀ s f b v, cl.tileOptimize s f b v ≠ [])
    (htt : 1 ≤ tile_trials) :
    ∀ (l : List Nat) (st st' : DriverState),
      List.foldlM (compileStep cl settings vars inputs outputs udOps kid tile_trials) st l
        = .ok st' →
      (∀ ki ∈ st.kernels, NameOk kid ki) →
      ∀ ki ∈ st'.kernels, NameOk kid ki := by
  intro l
  induction l with
  | nil =>
    intro st st' h hinv
    simp only [List.foldlM_nil] at h
    injection h with h
    subst h
    exact hinv
  | cons a t ih =>
    intro st st' h hinv
    rw [List.foldlM_cons] at h
    obtain ⟨st1, hstep, hrest⟩ := except_bind_ok h
    exact ih st1 st' hrest
      (compileStep_names cl settings vars inputs outputs udOps kid tile_trials
        hGC hGZ hGCp hGS hTO htt st a st1 hstep hinv)

/-- C9 counterexample: on the one-contraction program `[opC9]` the
compilation emits two kernels, `zero_kernel_x_0` and `kernel_x_0`; the
emitted kernel at position 1 (counting from 0 across the compilation) is
named `kernel_x_0`, not `kernel_x_1`, so the N-th emitted kernel is not in
general named `<kid>_<N>`. -/
theorem kernel_names_positional_cex :
    (GenerateProgram mockCollab mockSettings [opC9] varsMock [] ["O"] "x" 1).map
      (fun r => r.kernels.map (fun k => k.kname)) =
      Except.ok ["zero_kernel_x_0", "kernel_x_0"] ∧
    "kernel_x_0" ≠ "kernel_x_1" := by
  constructor
  · rfl
  · decide

/-- C9 (amended): `GenerateProgram` sanitizes the caller-supplied id to
`kid = "kernel_" ++ id` with every non-alphanumeric character replaced by
`'_'`, and — provided the external emitters name their kernels by the
`kname` argument, `TileOptimize` returns at least one tile, and
`tile_trials ≥ 1` — every emitted kernel is named `<kid>_<n>`,
`zero_<kid>_<n>` or `copy_<kid>_<n>` for some value `n` of the kernel-name
counter.  (The counter advances per name allocation, not per emitted
kernel: a prelude shares its contraction's `n` and an allocation may emit
no kernel, so a kernel's position in the emitted list can differ from its
suffix.) -/
theorem generateProgram_kernel_names (cl : Collab) (settings : HardwareSettings)
    (prog : List Op) (vars : String → Binding) (inputs outputs : List String)
    (id : String) (tile_trials : Nat) (r : KernelList)
    (hGC : ∀ k s f t ins, (cl.genContract k s f t ins).kname = k)
    (hGZ : ∀ sh n k, (cl.genZero sh n k).kname = k)
    (hGCp : ∀ sh d s k, (cl.genCopy sh d s k).kname = k)
    (hGS : ∀ op k s, ∀ ki ∈ cl.genSpecial op k s, ki.kname = k)
    (hTO : ∀ s f b v, cl.tileOptimize s f b v ≠ [])
    (htt : 1 ≤ tile_trials)
    (hok : GenerateProgram cl settings prog vars inputs outputs id tile_trials = .ok r) :
    ∀ ki ∈ r.kernels, NameOk (sanitizeKid id) ki := by
  unfold GenerateProgram Compile at hok
  obtain ⟨stF, hF, hr⟩ := except_bind_ok hok
  injection hr with hr
  subst hr
  intro ki hki
  exact foldlM_compileStep_names cl settings vars inputs outputs prog
    (sanitizeKid id) tile_trials hGC hGZ hGCp hGS hTO htt
    (List.range prog.length) { ops := prog } stF hF
    (fun ki hk => absurd hk (List.not_mem_nil ki)) ki hki

/-- Witness for `generateProgram_kernel_names` on the concrete
one-contraction compilation, instantiated at the main contraction kernel. -/
theorem generateProgram_kernel_names_witness :
    NameOk (sanitizeKid "x")
      { kname := "kernel_x_0", inputs := ["A"], outputs := ["O"], tile_size := [1] } :=
  generateProgram_kernel_names mockCollab mockSettings [opC9] varsMock [] ["O"] "x" 1
    { kernels :=
        [{ kname := "zero_kernel_x_0", outputs := ["O"] },
         { kname := "kernel_x_0", inputs := ["A"], outputs := ["O"], tile_size := [1] }] }
    (fun _ _ _ _ _ => rfl) (fun _ _ _ => rfl) (fun _ _ _ _ => rfl)
    (fun _ k _ ki hki => by
      rcases List.mem_singleton.mp hki with rfl
      rfl)
    (fun _ _ _ _ h => List.noConfusion h) (Nat.le_refl 1) (by rfl)
    { kname := "kernel_x_0", inputs := ["A"], outputs := ["O"], tile_size := [1] }
    (by simp)

end TileLang
